import Mathlib

/-!
Verification development for the Chronicle continuity-extraction and
conflict engine.  The definitions below are a shallow embedding of the
TypeScript source:

* `src/bible/BibleManager.ts`    — fact reconciliation (`doUpdate`),
  forced attribute acceptance (`forceUpdateAttribute`) and the
  dismissed-conflict frontmatter marker (`appendDismissedConflictToFrontmatter`);
* `src/conflict/ConflictManager.ts` — conflict-log merge (`mergeConflicts`)
  and dismissal (`dismissConflict`);
* `src/extraction/LlmClient.ts` (ExtractionEngine part) — pattern-priority
  fact extraction (`extractPhysicalAttributes`), location extraction
  (`extractLocations`), the full-corpus accumulation (`fullScan`) and the
  scene-file filter (`isSceneFile` / `scanFile`);
* `src/extraction/patterns.ts`  — the attribute-noun dictionary and the
  noun/stem resolution helpers.

Strings are modelled with ordinary Lean `String`s; the few character-level
operations the source uses (`toLowerCase`, `trim`, `split`, `startsWith`,
`endsWith`, `slice`) are implemented below over `String.data` so that every
definition evaluates inside the kernel.  Markdown/YAML (de)serialisation is
modelled at the structure level: a write followed by a re-read is the
function `renderParse`, which applies exactly the display transformations
the generator performs and that the parser reads back (values are assumed
table-safe, i.e. free of `|` and newlines, and attribute keys lowercase —
which is what the engine itself produces).

The regular-expression engine is external to the source (a JavaScript
builtin); extraction functions therefore take the structured match lists
(capture groups plus match index) as input, and the loops, filters and
priority logic applied to those matches are translated faithfully.
-/

namespace Chronicle

/- ── String helpers (JS semantics over `String.data`) ─────────────────── -/

/-- JS `s.toLowerCase()` (ASCII as used by the engine). -/
def sLower (s : String) : String := ⟨s.data.map Char.toLower⟩

/-- JS whitespace test for `\s` / `trim`. -/
def isWs (c : Char) : Bool := c = ' ' ∨ c = '\n' ∨ c = '\t' ∨ c = '\r'

/-- JS `s.trim()`. -/
def sTrim (s : String) : String :=
  ⟨((s.data.dropWhile isWs).reverse.dropWhile isWs).reverse⟩

/-- JS `s.startsWith(p)`. -/
def sStarts (s p : String) : Bool := p.data.isPrefixOf s.data

/-- JS `s.endsWith(p)`. -/
def sEnds (s p : String) : Bool := p.data.reverse.isPrefixOf s.data.reverse

/-- Drop a suffix if present (used for `replace(/suf$/, "")`). -/
def dropSuffixIf (s suf : String) : String :=
  if sEnds s suf then ⟨s.data.take (s.data.length - suf.data.length)⟩ else s

/-- JS `s.slice(n)` (drop the first `n` characters). -/
def sDrop (s : String) : Nat → String := fun n => ⟨s.data.drop n⟩

/-- Split a character list on a class of separator characters, discarding
empty runs — the behaviour of JS `split(/\s+/)` on trimmed input and the
token part of `split(/\W+/)`. -/
def splitClassAux (sep : Char → Bool) : List Char → List Char → List String
  | [], acc => if acc.isEmpty then [] else [⟨acc.reverse⟩]
  | c :: cs, acc =>
    if sep c then
      if acc.isEmpty then splitClassAux sep cs []
      else ⟨acc.reverse⟩ :: splitClassAux sep cs []
    else splitClassAux sep cs (c :: acc)

/-- Nonempty tokens of `s` separated by characters satisfying `sep`. -/
def splitClass (sep : Char → Bool) (s : String) : List String :=
  splitClassAux sep s.data []

/-- JS `\w` word characters. -/
def isWordChar (c : Char) : Bool := c.isAlphanum ∨ c = '_'

/-- Join words with single spaces (JS `arr.join(" ")`). -/
def joinSpace : List String → String
  | [] => ""
  | [w] => w
  | w :: ws => w ++ " " ++ joinSpace ws

/-- Number of `\n` characters among the first `n` characters — the
line-offset computation of `ExtractionEngine.computeLineNumber`. -/
def newlinesBefore (s : String) (n : Nat) : Nat :=
  ((s.data.take n).filter (fun c => c = '\n')).length

/- ── Data model (src/types.ts) ────────────────────────────────────────── -/

inductive Provenance
  | tier1
  | tier2
  | manual
deriving DecidableEq

structure ExtractedFact where
  attr : String  -- source field name: attribute
  value : String
  sourceScene : String
  sourceLine : Nat
  sourceQuote : String
  extractedBy : Provenance
  extractedAt : String
deriving DecidableEq

inductive ConflictType
  | hard
  | soft
deriving DecidableEq

inductive ConflictStatus
  | active
  | dismissed
deriving DecidableEq

structure ConflictRecord where
  type : ConflictType
  entity : String
  attr : String  -- source field name: attribute
  priorValue : String
  priorScene : String
  newValue : String
  newScene : String
  newLine : Nat
  status : ConflictStatus
  dismissalNote : Option String
  dismissedAt : Option String
deriving DecidableEq

/-- Entry of a bible note's `dismissed-conflicts:` frontmatter list. -/
structure DismissedConflict where
  attr : String  -- source field name: attribute
  value : String
  scene : String
  note : Option String
  dismissedAt : String
deriving DecidableEq

structure AttributeChange where
  attr : String  -- source field name: attribute
  oldValue : Option String
  newValue : Option String
  sourceQuote : String
  sourceLine : Nat
deriving DecidableEq

/- ── Bible note state (BibleManager private row types + frontmatter) ──── -/

/-- Row of the `## Extracted Attributes` table. -/
structure AttributeTableRow where
  attr : String  -- source field name: attribute
  value : String
  firstMentioned : String
  source : String
deriving DecidableEq

/-- Row of the `## Appearances` table. -/
structure AppearanceRow where
  scene : String
  role : String
  chapter : String
deriving DecidableEq

/-- The parsed persisted state of one (character) bible note: the two
managed tables, the `## Last Known Location` line, and the
`manual-overrides` / `dismissed-conflicts` frontmatter maps. -/
structure BibleState where
  attrRows : List AttributeTableRow
  appRows : List AppearanceRow
  location : Option String
  manualOverrides : List (String × String)
  dismissedConflicts : List DismissedConflict
deriving DecidableEq

/-- First-match lookup in a `Record<string, string>` modelled as an
association list with unique keys (JS object). -/
def lookupOv (m : List (String × String)) (k : String) : Option String :=
  (m.find? (fun p => p.1 == k)).map (·.2)

/- ── Pattern library (src/extraction/patterns.ts) ─────────────────────── -/

/-- patterns.ts `ATTRIBUTE_NOUN_DICT` (entries in source/`Object.entries`
order). -/
def ATTRIBUTE_NOUN_DICT : List (String × List String) := [
  ("hair", ["hair", "locks", "mane", "braid", "braids", "curl", "curls",
            "tress", "tresses", "strand", "strands"]),
  ("eyes", ["eye", "eyes", "gaze", "stare", "irises", "iris"]),
  ("height", ["height", "stature"]),
  ("build", ["build", "frame", "figure", "physique", "body", "shoulders"]),
  ("age", ["age", "years"]),
  ("voice", ["voice", "tone", "timbre", "accent"])]

/-- patterns.ts `COMPLEXION_ADJECTIVES`. -/
def COMPLEXION_ADJECTIVES : List String :=
  ["pale", "pallid", "ashen", "sallow", "ruddy", "flushed",
   "tanned", "dark", "fair", "olive", "freckled"]

/-- patterns.ts `resolveNoun`: the first dictionary category having a noun
the lowered input equals or starts with. -/
def resolveNoun (noun : String) : Option String :=
  let lower := sLower noun
  (ATTRIBUTE_NOUN_DICT.find?
    (fun p => p.2.any (fun n => lower == n || sStarts lower n))).map (·.1)

/-- patterns.ts `normaliseStem`: lower-case, then strip a trailing "red",
then a trailing "ed", then a trailing "en" (three successive
`replace(/…$/, "")` calls applied to the previous result). -/
def normaliseStem (stem : String) : String :=
  dropSuffixIf (dropSuffixIf (dropSuffixIf (sLower stem) "red") "ed") "en"

/- ── Tier-1 extraction (ExtractionEngine in src/extraction/LlmClient.ts) ─ -/

/-- One regex match as delivered by the (external) JS regex engine: the two
capture groups (already `?? ""`-defaulted), the character index of the
match inside the window text, and the full matched text (`match[0]`). -/
structure RegexMatch where
  g1 : String
  g2 : String
  index : Nat
  matched : String
deriving DecidableEq

/-- ExtractionEngine.computeLineNumber: window start line plus the number
of newlines before the match index. -/
def computeLineNumber (windowText : String) (matchIndex windowStartLine : Nat) : Nat :=
  windowStartLine + newlinesBefore windowText matchIndex

/-- ExtractionEngine.truncateToSourceQuote: at most 30 whitespace-separated
words, with an ellipsis when truncated. -/
def truncateToSourceQuote (passage : String) : String :=
  let words := splitClass isWs (sTrim passage)
  if words.length ≤ 30 then sTrim passage
  else joinSpace (words.take 30) ++ "…"

/-- ExtractionEngine local `resolveGroups`: classify `g2` as a known noun;
failing that, reinterpret the last word of `g1` as the noun and the rest
as the value. -/
def resolveGroups (g1 g2 : String) : Option (String × String) :=
  match resolveNoun g2 with
  | some cat => some (cat, g1)
  | none =>
    let words := splitClass isWs g1
    if words.length > 1 then
      match words.getLast? with
      | some lastWord =>
        match resolveNoun lastWord with
        | some cat => some (cat, joinSpace words.dropLast)
        | none => none
      | none => none
    else none

/-- A resolved attribute candidate of one pattern match: the category and
value handed to `addFact`, plus the match it came from. -/
structure AttrCandidate where
  cat : String
  value : String
  m : RegexMatch
deriving DecidableEq

/-- Priority-1 loop body (`patternNounIs` matches): noun in group 1, value
in group 2; kept when the noun resolves and the value is nonempty. -/
def nounIsCandidates (ms : List RegexMatch) : List AttrCandidate :=
  ms.filterMap (fun m =>
    let noun := sTrim m.g1
    let value := sTrim m.g2
    match resolveNoun noun with
    | some category => if value ≠ "" then some ⟨category, value, m⟩ else none
    | none => none)

/-- Priority-2/3 loop bodies (`patternPossessive` / `patternVerbAttr`
matches): groups disambiguated through `resolveGroups`. -/
def groupCandidates (ms : List RegexMatch) : List AttrCandidate :=
  ms.filterMap (fun m =>
    match resolveGroups (sTrim m.g1) (sTrim m.g2) with
    | some (category, adj) => some ⟨category, adj, m⟩
    | none => none)

/-- Priority-4 loop body (`patternCompoundAdj` matches): group 2 is the
noun stem, normalised before dictionary lookup. -/
def compoundCandidates (ms : List RegexMatch) : List AttrCandidate :=
  ms.filterMap (fun m =>
    let adjValue := sTrim m.g1
    let stem := normaliseStem m.g2
    match resolveNoun stem with
    | some category => some ⟨category, adjValue, m⟩
    | none => none)

/-- Priority-5 loop body (`patternAppositive` matches): the first token of
the clause found in the complexion list wins, category "complexion". -/
def appositiveCandidates (ms : List RegexMatch) : List AttrCandidate :=
  ms.filterMap (fun m =>
    let clause := sTrim m.g1
    let tokens := splitClass (fun c => ¬ isWordChar c) (sLower clause)
    match tokens.find? (fun t => COMPLEXION_ADJECTIVES.contains t) with
    | some token => some ⟨"complexion", token, m⟩
    | none => none)

/-- The priority-ordered candidate stream of a single window evaluation:
noun-copula, possessive, verb-attribution, compound-adjective, appositive
— each pattern's matches in text order, exactly the order in which the
source runs its five `matchAll` loops. -/
def orderedCandidates (nounIsM possM verbM compM appM : List RegexMatch) :
    List AttrCandidate :=
  nounIsCandidates nounIsM ++ groupCandidates possM ++ groupCandidates verbM ++
    compoundCandidates compM ++ appositiveCandidates appM

/-- The fact `addFact` pushes for a candidate: value re-trimmed, line from
the match index, quote from the full match. -/
def factOfCandidate (windowText : String) (windowStartLine : Nat) (filePath now : String)
    (c : AttrCandidate) : ExtractedFact :=
  { attr := c.cat
    value := sTrim c.value
    sourceScene := filePath
    sourceLine := computeLineNumber windowText c.m.index windowStartLine
    sourceQuote := truncateToSourceQuote c.m.matched
    extractedBy := Provenance.tier1
    extractedAt := now }

/-- ExtractionEngine local `addFact`: skip when the attribute category is
already in `seenAttributes`, else record it and push the fact. -/
def addFactStep (windowText : String) (windowStartLine : Nat) (filePath now : String)
    (acc : List String × List ExtractedFact) (c : AttrCandidate) :
    List String × List ExtractedFact :=
  if acc.1.contains c.cat then acc
  else (c.cat :: acc.1,
    acc.2 ++ [factOfCandidate windowText windowStartLine filePath now c])

/-- ExtractionEngine.extractPhysicalAttributes, with the five patterns'
match lists supplied by the external regex engine. -/
def extractPhysicalAttributes (windowText : String) (windowStartLine : Nat)
    (filePath now : String) (nounIsM possM verbM compM appM : List RegexMatch) :
    List ExtractedFact :=
  ((orderedCandidates nounIsM possM verbM compM appM).foldl
    (addFactStep windowText windowStartLine filePath now) ([], [])).2

/- ── Location extraction ──────────────────────────────────────────────── -/

/-- The name/alias data of one registry entry, as used by `resolveAlias`. -/
structure EntityRef where
  name : String
  aliases : List String
deriving DecidableEq

/-- ExtractionEngine.resolveAlias's `normalise`: lower-case, trim, strip a
leading "the ". -/
def aliasNormalise (s : String) : String :=
  let lower := sTrim (sLower s)
  if sStarts lower "the " then sDrop lower 4 else lower

/-- ExtractionEngine.resolveAlias: first entry whose name or an alias
normalises to the token's normal form; returns the canonical name. -/
def resolveAlias (token : String) (entries : List EntityRef) : Option String :=
  let normToken := aliasNormalise token
  (entries.find? (fun e =>
    aliasNormalise e.name == normToken
      || e.aliases.any (fun a => aliasNormalise a == normToken))).map (·.name)

/-- One match of a location movement pattern: capture group 1 (character
token), capture group 2 (location token), match index and matched text. -/
structure LocMatch where
  charToken : String
  locToken : String
  index : Nat
  matched : String
deriving DecidableEq

/-- The `continue` filters of the `extractLocations` loop body: the match
is retained when the character token resolves to the processed entry and
the location token resolves to a registered location — unless the pattern
is a "left" pattern, for which clearing is honoured regardless. -/
def retainedOf (entry : EntityRef) (locationEntries : List EntityRef)
    (left : Bool) (ms : List LocMatch) : List (LocMatch × Bool) :=
  ms.filterMap (fun m =>
    match resolveAlias m.charToken [entry] with
    | none => none
    | some _ =>
      let canonicalLocation := resolveAlias m.locToken locationEntries
      if canonicalLocation.isNone ∧ ¬ left then none
      else some (m, left))

/-- All retained matches of one window, in the fixed order the source runs
the four patterns returned by `buildLocationPatterns`: entered, arrived-at,
was-in, left (the `left` flag of each listed pattern). -/
def retainedLocMatches (entry : EntityRef) (locationEntries : List EntityRef)
    (enteredM arrivedM wasInM leftM : List LocMatch) : List (LocMatch × Bool) :=
  retainedOf entry locationEntries false enteredM ++
    retainedOf entry locationEntries false arrivedM ++
    retainedOf entry locationEntries false wasInM ++
    retainedOf entry locationEntries true leftM

/-- The fact pushed for a retained location match. -/
def locFactOf (windowText : String) (windowStartLine : Nat)
    (locationEntries : List EntityRef) (filePath now : String)
    (r : LocMatch × Bool) : ExtractedFact :=
  { attr := "location",
    value := if r.2 then "" else (resolveAlias r.1.locToken locationEntries).getD r.1.locToken,
    sourceScene := filePath,
    sourceLine := computeLineNumber windowText r.1.index windowStartLine,
    sourceQuote := truncateToSourceQuote r.1.matched,
    extractedBy := Provenance.tier1, extractedAt := now }

/-- ExtractionEngine.extractLocations: guard on an empty location registry,
push a fact per retained match of each pattern in pattern order, then keep
only the last pushed fact. -/
def extractLocations (windowText : String) (windowStartLine : Nat)
    (entry : EntityRef) (locationEntries : List EntityRef) (filePath now : String)
    (enteredM arrivedM wasInM leftM : List LocMatch) : List ExtractedFact :=
  if locationEntries.isEmpty then []
  else
    let facts := (retainedLocMatches entry locationEntries enteredM arrivedM wasInM leftM).map
      (locFactOf windowText windowStartLine locationEntries filePath now)
    let locationFacts := facts.filter (fun f => f.attr == "location")
    match locationFacts.getLast? with
    | some f => [f]
    | none => []

/-- Modelled from the spec (claim C7): the retained location match at the
greatest character index in the window text — "the latest position
statement in the window's text wins … regardless of which directional
pattern matched it".  Compared against `extractLocations`, which keeps the
last fact in pattern-iteration order instead. -/
def spec_latestLocationMatch (retained : List (LocMatch × Bool)) :
    Option (LocMatch × Bool) :=
  retained.foldl (fun best r =>
    match best with
    | none => some r
    | some b => if b.1.index ≤ r.1.index then some r else some b) none

/- ── Fact reconciliation (BibleManager.doUpdate) ──────────────────────── -/

/-- Accumulator of the fact-merge loop of `BibleManager.doUpdate` (step 5):
the growing `changes` and `conflicts` arrays, the working row list
`updatedAttrRows` and the working `updatedLocation`. -/
structure UpdateAcc where
  changes : List AttributeChange
  conflicts : List ConflictRecord
  rows : List AttributeTableRow
  loc : Option String
deriving DecidableEq

/-- The dismissed-conflict suppression test
(`dismissedConflicts.some(d => …)`). -/
def isDismissed (dis : List DismissedConflict) (a v s : String) : Bool :=
  dis.any (fun d => d.attr == a && d.value == v && d.scene == s)

/-- Update the first row carrying the attribute (JS `find` returns the row
object, whose `value`/`source` fields are then mutated in place). -/
def updateRowFirst (a v src : String) :
    List AttributeTableRow → List AttributeTableRow
  | [] => []
  | r :: rs =>
    if r.attr == a then { r with value := v, source := src } :: rs
    else r :: updateRowFirst a v src rs

/-- The hard-conflict record `doUpdate` pushes (status active, note and
date unset at creation). -/
def mkHardConflict (entityName priorValue priorScene : String)
    (fact : ExtractedFact) : ConflictRecord :=
  { type := ConflictType.hard
    entity := entityName
    attr := fact.attr
    priorValue := priorValue
    priorScene := priorScene
    newValue := fact.value
    newScene := fact.sourceScene
    newLine := fact.sourceLine
    status := ConflictStatus.active
    dismissalNote := none
    dismissedAt := none }

/-- The change record `doUpdate` pushes. -/
def mkChange (a : String) (oldValue newValue : Option String)
    (fact : ExtractedFact) : AttributeChange :=
  { attr := a
    oldValue := oldValue
    newValue := newValue
    sourceQuote := fact.sourceQuote
    sourceLine := fact.sourceLine }

/-- The fresh attribute row `doUpdate` pushes on first establishment. -/
def mkRow (fact : ExtractedFact) : AttributeTableRow :=
  { attr := fact.attr
    value := fact.value
    firstMentioned := fact.sourceScene
    source := fact.sourceQuote }

/-- The `for (const fact of facts)` loop body of `doUpdate`.  The location
comparison uses `existingLocation` — the location parsed from the note at
the start of the call — exactly as the source does. -/
def processFact (entityName : String) (existingLocation : Option String)
    (manualOverrides : List (String × String)) (dis : List DismissedConflict)
    (acc : UpdateAcc) (fact : ExtractedFact) : UpdateAcc :=
  match lookupOv manualOverrides fact.attr with
  | some overrideValue =>
    -- Manual override: never overwrite; raise a hard conflict when the
    -- nonempty fact value contradicts it and is not already dismissed.
    if fact.value ≠ "" ∧ fact.value ≠ overrideValue ∧
        ¬ isDismissed dis fact.attr fact.value fact.sourceScene then
      { acc with conflicts :=
          acc.conflicts ++ [mkHardConflict entityName overrideValue "(manual override)" fact] }
    else acc
  | none =>
    if fact.attr == "location" then
      let newLoc := if fact.value == "" then none else some fact.value
      if newLoc ≠ existingLocation then
        { acc with
          changes := acc.changes ++ [mkChange "location" existingLocation newLoc fact],
          loc := newLoc }
      else acc
    else
      match acc.rows.find? (fun r => r.attr == fact.attr) with
      | some existing =>
        if existing.value ≠ fact.value then
          if ¬ isDismissed dis fact.attr fact.value fact.sourceScene then
            -- Hard conflict: do NOT update the stored value.
            { acc with conflicts :=
                acc.conflicts ++ [mkHardConflict entityName existing.value existing.firstMentioned fact] }
          else
            -- Dismissed: fall through to update normally.
            { acc with
              changes := acc.changes ++ [mkChange fact.attr (some existing.value) (some fact.value) fact],
              rows := updateRowFirst fact.attr fact.value fact.sourceQuote acc.rows }
        else acc
      | none =>
        { acc with
          changes := acc.changes ++ [mkChange fact.attr none (some fact.value) fact],
          rows := acc.rows ++ [mkRow fact] }

/-- Appearance merge (step 6): add the scene unless a row for it exists. -/
def addSceneRow (rows : List AppearanceRow) (scene : String) : List AppearanceRow :=
  if rows.any (fun r => r.scene == scene) then rows
  else rows ++ [{ scene := scene, role := "—", chapter := "—" }]

/-- Step-7 test: some row is under a manual override whose source column
does not yet display "(manual override)". -/
def overrideNeedsDisplay (manualOverrides : List (String × String))
    (rows : List AttributeTableRow) : Bool :=
  rows.any (fun r =>
    (lookupOv manualOverrides r.attr).isSome && r.source != "(manual override)")

structure UpdateResult where
  changes : List AttributeChange
  conflicts : List ConflictRecord
  state : BibleState
  wrote : Bool
deriving DecidableEq

/-- `BibleManager.doUpdate` on the parsed state: merge the fact batch,
merge appearances, and either early-exit without writing (step 7) or
produce the state to be written. -/
def doUpdateCore (entityName : String) (st : BibleState) (facts : List ExtractedFact)
    (sceneFile : Option String) (appearances : List String) : UpdateResult :=
  let acc0 : UpdateAcc := ⟨[], [], st.attrRows, st.location⟩
  let acc := facts.foldl
    (processFact entityName st.location st.manualOverrides st.dismissedConflicts) acc0
  let allScenes := appearances ++ sceneFile.toList
  let updatedAppRows := allScenes.foldl addSceneRow st.appRows
  if acc.changes.isEmpty ∧ updatedAppRows.length = st.appRows.length ∧
      ¬ overrideNeedsDisplay st.manualOverrides acc.rows then
    { changes := [], conflicts := acc.conflicts, state := st, wrote := false }
  else
    let newState : BibleState :=
      { st with attrRows := acc.rows, appRows := updatedAppRows, location := acc.loc }
    { changes := acc.changes, conflicts := acc.conflicts, state := newState, wrote := true }

/-- Display transformation `regenerateManagedSection` applies to a row
under a manual override; the next `parseAttributeTable` reads the
displayed value and source back.  The value cell uses `??` (any present
override, empty string included), while the source cell uses JS
truthiness (`overrideVal ? "(manual override)" : row.source`): an
empty-string override keeps the row's original source. -/
def displayRow (manualOverrides : List (String × String)) (r : AttributeTableRow) :
    AttributeTableRow :=
  match lookupOv manualOverrides r.attr with
  | some v =>
    { r with
      value := v,
      source := if v == "" then r.source else "(manual override)" }
  | none => r

/-- Rows `regenerateManagedSection` appends for overridden attributes that
have no table row yet ("location" excluded). -/
def extraOverrideRows (manualOverrides : List (String × String))
    (rows : List AttributeTableRow) : List AttributeTableRow :=
  manualOverrides.filterMap (fun p =>
    if p.1 == "location" then none
    else if rows.any (fun r => r.attr == p.1) then none
    else some { attr := p.1, value := p.2, firstMentioned := "—",
                source := "(manual override)" })

/-- The persisted state read back after `regenerateManagedSection` +
`vault.modify` of a character note: overridden rows display the override,
missing overridden attributes gain display rows, and the location heading
holds the effective location (a falsy one renders "_No location data
yet._", parsed back as `null`).  Frontmatter overrides and dismissed
conflicts are untouched by the write. -/
def renderParse (st : BibleState) : BibleState :=
  let effLoc := match lookupOv st.manualOverrides "location" with
    | some v => some v
    | none => st.location
  { attrRows := st.attrRows.map (displayRow st.manualOverrides) ++
      extraOverrideRows st.manualOverrides st.attrRows,
    appRows := st.appRows,
    location := match effLoc with
      | some v => if v == "" then none else some v
      | none => none,
    manualOverrides := st.manualOverrides,
    dismissedConflicts := st.dismissedConflicts }

/-- `BibleManager.updateBibleNote` / `doUpdate` as one serialized operation
on the persisted note: on a write the next read sees the regenerated
(`renderParse`d) state, otherwise the note is untouched. -/
def bibleUpdate (entityName : String) (st : BibleState) (facts : List ExtractedFact)
    (sceneFile : Option String) (appearances : List String) : UpdateResult :=
  let r := doUpdateCore entityName st facts sceneFile appearances
  if r.wrote then { r with state := renderParse r.state } else r

/-- The row edit of `BibleManager.forceUpdateAttribute`: overwrite the
first matching row's value (source becomes "(accepted from …)"), else push
a new row. -/
def forceUpdateRows (a v scene : String) :
    List AttributeTableRow → List AttributeTableRow
  | [] => [{ attr := a, value := v, firstMentioned := scene,
             source := "(accepted from " ++ scene ++ ")" }]
  | r :: rs =>
    if r.attr == a then
      { r with value := v, source := "(accepted from " ++ scene ++ ")" } :: rs
    else r :: forceUpdateRows a v scene rs

/-- `BibleManager.forceUpdateAttribute`: set the attribute to the accepted
value bypassing conflict checks, delete any manual override on it, and
regenerate + write the note. -/
def forceUpdateAttribute (st : BibleState) (a v scene : String) : BibleState :=
  renderParse { st with
    attrRows := forceUpdateRows a v scene st.attrRows,
    manualOverrides := st.manualOverrides.filter (fun p => p.1 != a) }

/-- `BibleManager.appendDismissedConflictToFrontmatter`: the marker is
appended unless the frontmatter block already contains the three strings
`attribute: "…"`, `value: "…"`, `scene: "…"` — three independent substring
checks over the whole block, so each component may be contributed by a
*different* existing entry. -/
def addDismissedConflictPure (dis : List DismissedConflict) (d : DismissedConflict) :
    List DismissedConflict :=
  if dis.any (fun e => e.attr == d.attr) ∧ dis.any (fun e => e.value == d.value) ∧
      dis.any (fun e => e.scene == d.scene) then dis
  else dis ++ [d]

/-- The authoritative stored value of an attribute in a persisted record:
the manual override when present, else the attribute row's value — exactly
what `regenerateManagedSection` displays and what step 9 of `doUpdate`
writes into the frontmatter `attributes:` block. -/
def effectiveValue (st : BibleState) (a : String) : Option String :=
  match lookupOv st.manualOverrides a with
  | some v => some v
  | none => (st.attrRows.find? (fun r => r.attr == a)).map (·.value)

/- ── Conflict store (src/conflict/ConflictManager.ts) ─────────────────── -/

/-- The dedup key comparison of `mergeConflicts` / `dismissConflict`:
(entity, attribute, newScene). -/
def sameKey (e c : ConflictRecord) : Bool :=
  e.entity == c.entity && e.attr == c.attr && e.newScene == c.newScene

/-- Body of `ConflictManager.mergeConflicts`' loop: find the first record
with the incoming record's dedup key (`findIndex`); append when none;
update `newValue`/`newLine` in place when it is active; when it is
dismissed, append a fresh record only if the value differs from the
dismissed one. -/
def mergeStep : List ConflictRecord → ConflictRecord → List ConflictRecord
  | [], c => [c]
  | e :: rest, c =>
    if sameKey e c then
      if e.status == ConflictStatus.active then
        { e with newValue := c.newValue, newLine := c.newLine } :: rest
      else if e.newValue != c.newValue then
        e :: (rest ++ [c])
      else e :: rest
    else e :: mergeStep rest c

/-- `ConflictManager.mergeConflicts` on the loaded list. -/
def mergeConflicts (existing incoming : List ConflictRecord) : List ConflictRecord :=
  incoming.foldl mergeStep existing

/-- The log transition of `ConflictManager.dismissConflict`: every active
record with the conflict's dedup key becomes dismissed, stamped with the
note (dropped when empty) and date. -/
def dismissAllForKey (log : List ConflictRecord) (conflict : ConflictRecord)
    (note today : String) : List ConflictRecord :=
  log.map (fun c =>
    if sameKey c conflict ∧ c.status == ConflictStatus.active then
      { c with status := ConflictStatus.dismissed,
               dismissalNote := if note == "" then none else some note,
               dismissedAt := some today }
    else c)

/-- `ConflictManager.dismissConflict`: dismiss the matching active log
records and write the dismissal marker into the bible note's frontmatter. -/
def dismissConflictOp (st : BibleState) (log : List ConflictRecord)
    (conflict : ConflictRecord) (note today : String) :
    BibleState × List ConflictRecord :=
  let marker : DismissedConflict :=
    { attr := conflict.attr
      value := conflict.newValue
      scene := conflict.newScene
      note := if note == "" then none else some note
      dismissedAt := today }
  ({ st with dismissedConflicts := addDismissedConflictPure st.dismissedConflicts marker },
   dismissAllForKey log conflict note today)

/-- Active records for a dedup key (the claim-C3 invariant's measure). -/
def countActive (log : List ConflictRecord) (ent a scene : String) : Nat :=
  (log.filter (fun c => c.entity == ent && c.attr == a && c.newScene == scene &&
    c.status == ConflictStatus.active)).length

/-- The per-entity tail of `ExtractionEngine.scanFile`: `updateBibleNote`
followed, when conflicts were produced, by `mergeConflicts` on the log. -/
def scanStep (entityName : String) (st : BibleState) (log : List ConflictRecord)
    (facts : List ExtractedFact) (sceneFile : String) :
    UpdateResult × List ConflictRecord :=
  let r := bibleUpdate entityName st facts (some sceneFile) []
  (r, if r.conflicts.isEmpty then log else mergeConflicts log r.conflicts)

/- ── Full-corpus scan (ExtractionEngine.fullScan) ─────────────────────── -/

/-- One corpus file's extraction output: path, modification time and the
per-entity fact map produced by `extractFromContent` (+ Tier-2 merge). -/
structure FileScan where
  path : String
  mtime : Int
  factMap : List (String × List ExtractedFact)
deriving DecidableEq

/-- Stable ascending insertion by mtime — the stable JS
`sort((a, b) => a.stat.mtime - b.stat.mtime)`. -/
def insertByMtime (x : FileScan) : List FileScan → List FileScan
  | [] => [x]
  | y :: ys => if y.mtime ≤ x.mtime then y :: insertByMtime x ys else x :: y :: ys

def sortByMtime (files : List FileScan) : List FileScan :=
  files.foldr insertByMtime []

/-- JS `Map.set`: replace the first binding in place, else append. -/
def setAttrFact (k : String) (v : ExtractedFact) :
    List (String × ExtractedFact) → List (String × ExtractedFact)
  | [] => [(k, v)]
  | p :: ps => if p.1 == k then (k, v) :: ps else p :: setAttrFact k v ps

/-- The per-fact accumulation rule of `fullScan`: location overwrites
(latest wins), any other attribute inserts only when absent (first wins). -/
def accumFactStep (m : List (String × ExtractedFact)) (fact : ExtractedFact) :
    List (String × ExtractedFact) :=
  if fact.attr == "location" then setAttrFact "location" fact m
  else if (m.find? (fun p => p.1 == fact.attr)).isSome then m
  else m ++ [(fact.attr, fact)]

def accumEntityFacts (m : List (String × ExtractedFact))
    (facts : List ExtractedFact) : List (String × ExtractedFact) :=
  facts.foldl accumFactStep m

/-- JS `globalAttrs.get(entity)` after the `if (!has) set(new Map())`
default. -/
def getEntity (g : List (String × List (String × ExtractedFact))) (e : String) :
    List (String × ExtractedFact) :=
  ((g.find? (fun p => p.1 == e)).map (·.2)).getD []

/-- JS `Map.set` on the global map. -/
def setEntity (e : String) (m : List (String × ExtractedFact)) :
    List (String × List (String × ExtractedFact)) →
    List (String × List (String × ExtractedFact))
  | [] => [(e, m)]
  | p :: ps => if p.1 == e then (e, m) :: ps else p :: setEntity e m ps

/-- One file of the `for (const file of allFiles)` loop (attribute part):
each entity's facts accumulate into its global attribute map. -/
def accumFile (g : List (String × List (String × ExtractedFact))) (f : FileScan) :
    List (String × List (String × ExtractedFact)) :=
  f.factMap.foldl (fun g p => setEntity p.1 (accumEntityFacts (getEntity g p.1) p.2) g) g

/-- `fullScan`'s global accumulation over the mtime-sorted corpus. -/
def fullScanAccum (files : List FileScan) :
    List (String × List (String × ExtractedFact)) :=
  (sortByMtime files).foldl accumFile []

/-- The per-entity fact batches `fullScan` hands to `updateBibleNote` —
one call per entity of the global map (`Array.from(attrMap.values())`). -/
def fullScanWrites (files : List FileScan) : List (String × List ExtractedFact) :=
  (fullScanAccum files).map (fun p => (p.1, p.2.map (·.2)))

/-- The corpus-wide fact stream of one entity: its facts from every file in
ascending-mtime order, each file's facts in extraction order. -/
def entityFactStream (files : List FileScan) (e : String) : List ExtractedFact :=
  (sortByMtime files).flatMap (fun f => (f.factMap.filter (fun p => p.1 == e)).flatMap (·.2))

/-- Lookup in a per-entity attribute map (JS `Map.get`). -/
def lookupAttr (m : List (String × ExtractedFact)) (a : String) : Option ExtractedFact :=
  (m.find? (fun p => p.1 == a)).map (·.2)

/- ── Scene-file filtering (ExtractionEngine.scanFile / isSceneFile) ───── -/

/-- The settings fields `isSceneFile` consults. -/
structure SettingsModel where
  bibleFolderPath : String
  registryPath : String
  sceneFolders : List String
deriving DecidableEq

structure TFileModel where
  path : String
  extension : String
deriving DecidableEq

/-- JS `p.substring(0, p.lastIndexOf("/"))` — empty when `p` has no slash
(`substring(0, -1)` is empty). -/
def parentDir (p : String) : String :=
  match p.data.reverse.dropWhile (fun c => c ≠ '/') with
  | [] => ""
  | _ :: rest => ⟨rest.reverse⟩

/-- `ExtractionEngine.isSceneFile` (the source's `biblePath` and
`registryDir` locals are inlined: `dropSuffixIf … "/"` is the
`replace(/\/$/, "")` normalisation and `parentDir` the
`substring(0, lastIndexOf("/"))`). -/
def isSceneFile (s : SettingsModel) (f : TFileModel) : Bool :=
  if f.extension != "md" then false
  else if sStarts f.path (dropSuffixIf s.bibleFolderPath "/" ++ "/") then false
  else if f.path == s.registryPath then false
  else if parentDir s.registryPath != "" &&
      sStarts f.path (parentDir s.registryPath ++ "/") then false
  else if s.sceneFolders.isEmpty then true
  else s.sceneFolders.any (fun folder =>
    sStarts f.path (dropSuffixIf folder "/" ++ "/"))

/-- Externally observable operations of a scan: reads of the document and
registry, bible-note writes, conflict-log merges. -/
inductive ScanEffect
  | readFile (path : String)
  | loadRegistry
  | writeEntity (name : String)
  | mergeConflictLog
deriving DecidableEq

structure ScanResultModel where
  scannedPaths : List String
  entities : List String
  conflicts : List ConflictRecord
  durationMs : Nat
deriving DecidableEq

/-- `ExtractionEngine.scanFile`: a non-scene file short-circuits to an
empty result (`durationMs: 0`) before any read or write; otherwise the
scan pipeline — abstracted as `pipeline`, whose first effects are the
document read and the registry load — runs. -/
def scanFile (s : SettingsModel) (f : TFileModel)
    (pipeline : TFileModel → ScanResultModel × List ScanEffect) :
    ScanResultModel × List ScanEffect :=
  if isSceneFile s f then pipeline f
  else ({ scannedPaths := [], entities := [], conflicts := [], durationMs := 0 }, [])

/-- Modelled from the claim (C10): the enumeration of non-scene files —
not markdown, inside the configured bible folder, the registry file
itself, inside the registry file's parent folder (when it has one), or —
when scene folders are configured — outside all configured scene folders. -/
def spec_nonSceneFile (s : SettingsModel) (f : TFileModel) : Prop :=
  f.extension ≠ "md" ∨
  sStarts f.path (dropSuffixIf s.bibleFolderPath "/" ++ "/") = true ∨
  f.path = s.registryPath ∨
  (parentDir s.registryPath ≠ "" ∧
    sStarts f.path (parentDir s.registryPath ++ "/") = true) ∨
  (s.sceneFolders ≠ [] ∧
    ∀ folder ∈ s.sceneFolders, sStarts f.path (dropSuffixIf folder "/" ++ "/") = false)

/- ────────────────────────────────────────────────────────────────────────
   Derived definitions and concrete fixtures used by the theorems below
   ──────────────────────────────────────────────────────────────────────── -/

/-- A tier-1 fact as the extractor produces it. -/
def wFact (a v s : String) : ExtractedFact :=
  ⟨a, v, s, 3, "quote", Provenance.tier1, "t"⟩

/-- A freshly created bible note (what `createBibleNote` generates). -/
def emptyState : BibleState := ⟨[], [], none, [], []⟩

/-- The inputs of one `updateBibleNote` call. -/
structure ScanOpInput where
  facts : List ExtractedFact
  sceneFile : Option String
  appearances : List String

/-- A sequence of reconciliations against one entity's note (the
per-entity update queue executes them one at a time, in order). -/
def applyScanOps (entityName : String) (st : BibleState) (ops : List ScanOpInput) :
    BibleState :=
  ops.foldl (fun s op => (bibleUpdate entityName s op.facts op.sceneFile op.appearances).state) st

/-- First-wins selection per attribute category — the effect the
`seenAttributes` set has on the candidate stream. -/
def dedupFirstBy (seen : List String) : List AttrCandidate → List AttrCandidate
  | [] => []
  | c :: cs =>
    if seen.contains c.cat then dedupFirstBy seen cs
    else c :: dedupFirstBy (c.cat :: seen) cs

/-- The dedup key of a conflict record. -/
def keyOf (c : ConflictRecord) : String × String × String :=
  (c.entity, c.attr, c.newScene)

/-- A hard conflict record for the (Elena, hair, s1.md) dedup key with the
given new value, as `doUpdate` would emit it. -/
def c3Rec (v : String) : ConflictRecord :=
  ⟨ConflictType.hard, "Elena", "hair", "red", "s0.md", v, "s1.md", 3,
   ConflictStatus.active, none, none⟩

/-- Record with hair "red" and eyes "green" established in s0.md; both
scene files already appear, so conflict-only scans perform no writes. -/
def c5St0 : BibleState :=
  ⟨[⟨"hair", "red", "s0.md", "q"⟩, ⟨"eyes", "green", "s0.md", "q"⟩],
   [⟨"s1.md", "—", "—"⟩, ⟨"s2.md", "—", "—"⟩], none, [], []⟩

def c5CA : ConflictRecord := mkHardConflict "Elena" "green" "s0.md" (wFact "eyes" "blue" "s2.md")

def c5CB : ConflictRecord := mkHardConflict "Elena" "red" "s0.md" (wFact "hair" "blu" "s1.md")

def c5CC : ConflictRecord := mkHardConflict "Elena" "red" "s0.md" (wFact "hair" "blue" "s1.md")

/-- The state and log after: scan s2 yields eyes "blue" (conflict), user
dismisses it; scan s1 yields hair "blu" (a stale partial save, conflict),
user dismisses it; s1 is fixed to "blue" and re-scanned (conflict, since
"blue" was never dismissed), user dismisses THAT conflict — but the
marker (hair, "blue", s1.md) is skipped, because "hair" and "s1.md" occur
in the (hair, "blu", s1.md) marker and "blue" in the (eyes, "blue", s2.md)
marker. -/
def c5AfterF : BibleState × List ConflictRecord :=
  let rA := bibleUpdate "Elena" c5St0 [wFact "eyes" "blue" "s2.md"] (some "s2.md") []
  let logA := mergeConflicts [] rA.conflicts
  let sB := dismissConflictOp rA.state logA c5CA "" "2026-01-01"
  let rC := bibleUpdate "Elena" sB.1 [wFact "hair" "blu" "s1.md"] (some "s1.md") []
  let logC := mergeConflicts sB.2 rC.conflicts
  let sD := dismissConflictOp rC.state logC c5CB "" "2026-01-02"
  let rE := bibleUpdate "Elena" sD.1 [wFact "hair" "blue" "s1.md"] (some "s1.md") []
  let logE := mergeConflicts sD.2 rE.conflicts
  dismissConflictOp rE.state logE c5CC "" "2026-01-03"

/-- One more scan of the unchanged s1.md after the final dismissal. -/
def c5AfterG : UpdateResult × List ConflictRecord :=
  let rG := bibleUpdate "Elena" c5AfterF.1 [wFact "hair" "blue" "s1.md"] (some "s1.md") []
  (rG, mergeConflicts c5AfterF.2 rG.conflicts)

/-- A fact the reconciler's loop leaves entirely alone (no change record,
no row edit, no pending-location edit) against a record with attribute
rows `R` and stored location `L`: overridden, or a location fact matching
the stored location, or an ordinary fact whose stored row either already
holds the value or differs with the triple not dismissed (pure conflict). -/
def stableFactB (R : List AttributeTableRow) (L : Option String)
    (ov : List (String × String)) (dis : List DismissedConflict)
    (f : ExtractedFact) : Bool :=
  match lookupOv ov f.attr with
  | some _ => true
  | none =>
    if f.attr == "location" then
      (if f.value == "" then none else some f.value) == L
    else
      match R.find? (fun r => r.attr == f.attr) with
      | some r => r.value == f.value || !(isDismissed dis f.attr f.value f.sourceScene)
      | none => false

/-- The first record in the log carrying the incoming conflict's dedup key
exists and is active (the situation in which `mergeConflicts` dedups by
updating in place instead of appending). -/
def firstKeyMatchActive (log : List ConflictRecord) (c : ConflictRecord) : Bool :=
  match log.find? (fun e2 => sameKey e2 c) with
  | some rec2 => rec2.status == ConflictStatus.active
  | none => false

/-- The fact-loop fold of `doUpdate` on a parsed state. -/
def updateFold (e : String) (st : BibleState) (facts : List ExtractedFact) : UpdateAcc :=
  facts.foldl (processFact e st.location st.manualOverrides st.dismissedConflicts)
    ⟨[], [], st.attrRows, st.location⟩

/-- The pre-regeneration state `doUpdate` writes when it does not early
exit. -/
def writtenState (e : String) (st : BibleState) (facts : List ExtractedFact)
    (sceneFile : Option String) (appearances : List String) : BibleState :=
  { st with
    attrRows := (updateFold e st facts).rows,
    appRows := (appearances ++ sceneFile.toList).foldl addSceneRow st.appRows,
    location := (updateFold e st facts).loc }

/-- C2 counterexample batch: one scene stating an arrival and then a
departure of the same entity, i.e. two location facts in a single batch. -/
def c2Facts : List ExtractedFact :=
  [wFact "location" "The Vault" "s1.md", wFact "location" "" "s1.md"]

def c2Run1 : UpdateResult := bibleUpdate "Elena" emptyState c2Facts (some "s1.md") []

def c2Run2 : UpdateResult := bibleUpdate "Elena" c2Run1.state c2Facts (some "s1.md") []

/- ────────────────────────────────────────────────────────────────────────
   General lemmas about the model's list operations
   ──────────────────────────────────────────────────────────────────────── -/

theorem find?_map_of_pred {α β : Type} (f : α → β) (p : β → Bool) (q : α → Bool)
    (h : ∀ a, p (f a) = q a) (l : List α) :
    (l.map f).find? p = (l.find? q).map f := by
  induction l with
  | nil => rfl
  | cons x xs ih =>
    simp only [List.map_cons, List.find?_cons, h x]
    cases q x <;> simp [ih]

theorem displayRow_attr (ov : List (String × String)) (r : AttributeTableRow) :
    (displayRow ov r).attr = r.attr := by
  unfold displayRow
  cases lookupOv ov r.attr <;> rfl

theorem displayRow_eq_of_not_overridden (ov : List (String × String))
    (r : AttributeTableRow) (h : lookupOv ov r.attr = none) : displayRow ov r = r := by
  unfold displayRow
  rw [h]

/-- `renderParse` preserves the first row of a non-overridden attribute. -/
theorem renderParse_find?_of_not_overridden (st : BibleState) (a : String)
    (h : lookupOv st.manualOverrides a = none) :
    (renderParse st).attrRows.find? (fun r => r.attr == a) =
      (st.attrRows.find? (fun r => r.attr == a)).map (displayRow st.manualOverrides) := by
  unfold renderParse
  simp only [List.find?_append]
  rw [find?_map_of_pred (displayRow st.manualOverrides) _ (fun r => r.attr == a)
    (fun r => by rw [displayRow_attr])]
  cases hf : st.attrRows.find? (fun r => r.attr == a) with
  | some r => rfl
  | none =>
    simp only [Option.map_none', Option.none_or]
    cases hfe : (extraOverrideRows st.manualOverrides st.attrRows).find?
        (fun r => r.attr == a) with
    | none => rfl
    | some r =>
      exfalso
      have hmem := List.find?_some hfe
      have hmem2 := List.mem_of_find?_eq_some hfe
      have hr : r.attr = a := by simpa using hmem
      unfold extraOverrideRows at hmem2
      obtain ⟨p, hp, hpr⟩ := List.mem_filterMap.mp hmem2
      by_cases h1 : p.1 == "location"
      · simp [h1] at hpr
      · by_cases h2 : st.attrRows.any (fun q => q.attr == p.1)
        · simp [h1, h2] at hpr
        · simp only [h1, h2] at hpr
          simp only [if_neg, Bool.false_eq_true, not_false_eq_true, if_false] at hpr
          -- r is the extra row for override key p.1 = a, yet lookupOv _ a = none
          have hpa : p.1 = a := by
            have h' := Option.some.inj hpr
            rw [← h'] at hr
            exact hr
          have : lookupOv st.manualOverrides a ≠ none := by
            unfold lookupOv
            cases hfind : st.manualOverrides.find? (fun q => q.1 == a) with
            | some q => simp
            | none =>
              exfalso
              have := List.find?_eq_none.mp hfind p hp
              simp [hpa] at this
          exact this h

/-- The effective stored value of a non-overridden attribute survives the
write/re-read round trip. -/
theorem effectiveValue_renderParse_not_overridden (st : BibleState) (a : String)
    (h : lookupOv st.manualOverrides a = none) :
    effectiveValue (renderParse st) a =
      (st.attrRows.find? (fun r => r.attr == a)).map (·.value) := by
  unfold effectiveValue
  have hm : (renderParse st).manualOverrides = st.manualOverrides := rfl
  rw [hm, h]
  rw [renderParse_find?_of_not_overridden st a h]
  cases hf : st.attrRows.find? (fun r => r.attr == a) with
  | none => rfl
  | some r =>
    have hr : r.attr = a := by simpa using List.find?_some hf
    simp only [Option.map_some']
    rw [displayRow_eq_of_not_overridden _ _ (by rw [hr]; exact h)]

theorem lookupOv_filter_ne (m : List (String × String)) (a : String) :
    lookupOv (m.filter (fun p => p.1 != a)) a = none := by
  unfold lookupOv
  cases hf : (m.filter (fun p => p.1 != a)).find? (fun p => p.1 == a) with
  | none => rfl
  | some q =>
    exfalso
    have h1 := List.find?_some hf
    have h2 := List.mem_of_find?_eq_some hf
    have h3 := List.of_mem_filter h2
    have h1' : q.1 = a := by simpa using h1
    have h3' : q.1 ≠ a := by simpa using h3
    exact h3' h1'

theorem forceUpdateRows_value (a v scene : String) (l : List AttributeTableRow) :
    ((forceUpdateRows a v scene l).find? (fun r => r.attr == a)).map (·.value) = some v := by
  induction l with
  | nil => simp [forceUpdateRows]
  | cons r rs ih =>
    unfold forceUpdateRows
    by_cases h : (r.attr == a) = true
    · rw [if_pos h]
      simp [List.find?_cons, h]
    · rw [if_neg h]
      simp only [List.find?_cons]
      simp [h, ih]

/- ────────────────────────────────────────────────────────────────────────
   Concrete fixtures shared by witnesses and counterexamples
   ──────────────────────────────────────────────────────────────────────── -/

/- ────────────────────────────────────────────────────────────────────────
   C4 — ordinary-attribute contradiction emits a hard conflict as data
   ──────────────────────────────────────────────────────────────────────── -/

/-- C4: during reconciliation of an ordinary (non-location, non-overridden)
attribute fact whose value differs from the established stored value, when
the exact (attribute, value, scene) triple is not dismissed, the update
emits exactly one hard conflict record as data — carrying the prior
value/scene and the new value/scene/line — records no change, and leaves
the stored attribute at the established value (the reconciler is a pure
function returning the conflict, so nothing is thrown). -/
theorem C4_hard_conflict_without_update
    (entityName : String) (st : BibleState) (f : ExtractedFact)
    (r : AttributeTableRow) (sceneFile : Option String) (apps : List String)
    (hov : lookupOv st.manualOverrides f.attr = none)
    (hloc : f.attr ≠ "location")
    (hrow : st.attrRows.find? (fun q => q.attr == f.attr) = some r)
    (hne : r.value ≠ f.value)
    (hdis : isDismissed st.dismissedConflicts f.attr f.value f.sourceScene = false) :
    (bibleUpdate entityName st [f] sceneFile apps).changes = [] ∧
    (bibleUpdate entityName st [f] sceneFile apps).conflicts =
      [mkHardConflict entityName r.value r.firstMentioned f] ∧
    effectiveValue (bibleUpdate entityName st [f] sceneFile apps).state f.attr =
      some r.value := by
  have hloc' : (f.attr == "location") = false := by simpa using hloc
  have hacc : (List.foldl
      (processFact entityName st.location st.manualOverrides st.dismissedConflicts)
      ⟨[], [], st.attrRows, st.location⟩ [f]) =
      ⟨[], [mkHardConflict entityName r.value r.firstMentioned f], st.attrRows, st.location⟩ := by
    simp only [List.foldl_cons, List.foldl_nil, processFact, hov, hloc', hrow, hdis]
    simp [hne]
  have hrattr : r.attr = f.attr := by
    have := List.find?_some hrow
    simpa using this
  simp only [bibleUpdate, doUpdateCore, hacc]
  split
  · refine ⟨rfl, rfl, ?_⟩
    show effectiveValue st f.attr = some r.value
    unfold effectiveValue
    rw [hov, hrow]
    rfl
  · refine ⟨rfl, rfl, ?_⟩
    show effectiveValue (renderParse ⟨st.attrRows,
      List.foldl addSceneRow st.appRows (apps ++ sceneFile.toList),
      st.location, st.manualOverrides, st.dismissedConflicts⟩) f.attr = some r.value
    rw [effectiveValue_renderParse_not_overridden _ f.attr (by exact hov)]
    show (st.attrRows.find? (fun q => q.attr == f.attr)).map (·.value) = some r.value
    rw [hrow]
    rfl

/-- Witness for C4: scanning "Elena's eyes were hazel" against a record
whose eyes are established as "brown" yields the hard conflict and leaves
"brown" stored. -/
theorem C4_hard_conflict_without_update_witness :
    (bibleUpdate "Elena" ⟨[⟨"eyes", "brown", "s1.md", "q"⟩], [], none, [], []⟩
      [wFact "eyes" "hazel" "s2.md"] (some "s2.md") []).changes = [] ∧
    (bibleUpdate "Elena" ⟨[⟨"eyes", "brown", "s1.md", "q"⟩], [], none, [], []⟩
      [wFact "eyes" "hazel" "s2.md"] (some "s2.md") []).conflicts =
      [mkHardConflict "Elena" "brown" "s1.md" (wFact "eyes" "hazel" "s2.md")] ∧
    effectiveValue (bibleUpdate "Elena" ⟨[⟨"eyes", "brown", "s1.md", "q"⟩], [], none, [], []⟩
      [wFact "eyes" "hazel" "s2.md"] (some "s2.md") []).state (wFact "eyes" "hazel" "s2.md").attr =
      some "brown" :=
  C4_hard_conflict_without_update "Elena"
    ⟨[⟨"eyes", "brown", "s1.md", "q"⟩], [], none, [], []⟩
    (wFact "eyes" "hazel" "s2.md") ⟨"eyes", "brown", "s1.md", "q"⟩ (some "s2.md") []
    (by decide) (by decide) (by decide) (by decide) (by decide)

/- ────────────────────────────────────────────────────────────────────────
   C6 — location attribute: empty string clears, overwrite without conflict
   ──────────────────────────────────────────────────────────────────────── -/

theorem conflicts_ite (P : Prop) [Decidable P] (A B : UpdateAcc) :
    (if P then A else B).conflicts = if P then A.conflicts else B.conflicts :=
  apply_ite UpdateAcc.conflicts P A B

/-- Any conflict `processFact` adds beyond the accumulator either concerns
an overridden attribute or a non-location attribute; in particular, when
"location" is not overridden, no location conflict is ever pushed. -/
theorem processFact_no_location_conflict (entityName : String)
    (L : Option String) (ov : List (String × String)) (dis : List DismissedConflict)
    (acc : UpdateAcc) (f : ExtractedFact)
    (h : lookupOv ov "location" = none) (c : ConflictRecord)
    (hc : c ∈ (processFact entityName L ov dis acc f).conflicts) :
    c ∈ acc.conflicts ∨ c.attr ≠ "location" := by
  revert hc
  unfold processFact
  cases hov : lookupOv ov f.attr with
  | some v =>
    have hfa : f.attr ≠ "location" := by
      intro he
      rw [he, h] at hov
      exact Option.noConfusion hov
    rw [conflicts_ite]
    split
    · intro hc
      have hc' : c ∈ acc.conflicts ++ [mkHardConflict entityName v "(manual override)" f] := hc
      rcases List.mem_append.mp hc' with h1 | h1
      · exact Or.inl h1
      · right
        have he : c = mkHardConflict entityName v "(manual override)" f := by simpa using h1
        rw [he]
        exact hfa
    · intro hc
      exact Or.inl hc
  | none =>
    by_cases hl : (f.attr == "location") = true
    · rw [if_pos hl]
      intro hc
      rw [conflicts_ite] at hc
      have hc' : c ∈ acc.conflicts := by
        rcases em ((if (f.value == "") = true then none else some f.value) ≠ L) with hp | hp
        · rw [if_pos hp] at hc
          exact hc
        · rw [if_neg hp] at hc
          exact hc
      exact Or.inl hc'
    · rw [if_neg hl]
      have hfa : f.attr ≠ "location" := by simpa using hl
      cases hfind : acc.rows.find? (fun r => r.attr == f.attr) with
      | some existing =>
        rw [conflicts_ite, conflicts_ite]
        split
        · split
          · intro hc
            have hc' : c ∈ acc.conflicts ++
                [mkHardConflict entityName existing.value existing.firstMentioned f] := hc
            rcases List.mem_append.mp hc' with h1 | h1
            · exact Or.inl h1
            · right
              have he : c = mkHardConflict entityName existing.value existing.firstMentioned f := by
                simpa using h1
              rw [he]
              exact hfa
          · intro hc
            exact Or.inl hc
        · intro hc
          exact Or.inl hc
      | none =>
        intro hc
        exact Or.inl hc

/-- Fold version of `processFact_no_location_conflict`. -/
theorem fold_no_location_conflict (entityName : String) (L : Option String)
    (ov : List (String × String)) (dis : List DismissedConflict)
    (facts : List ExtractedFact) (acc : UpdateAcc)
    (h : lookupOv ov "location" = none) (c : ConflictRecord)
    (hc : c ∈ (facts.foldl (processFact entityName L ov dis) acc).conflicts) :
    c ∈ acc.conflicts ∨ c.attr ≠ "location" := by
  induction facts generalizing acc with
  | nil => exact Or.inl hc
  | cons f fs ih =>
    rw [List.foldl_cons] at hc
    rcases ih (processFact entityName L ov dis acc f) hc with h1 | h1
    · exact processFact_no_location_conflict entityName L ov dis acc f h c h1
    · exact Or.inr h1

/-- The location heading's value survives the write/re-read round trip when
"location" is not manually overridden and the value is not the empty
string (which renders "_No location data yet._"). -/
theorem renderParse_location_not_overridden (st : BibleState)
    (h : lookupOv st.manualOverrides "location" = none)
    (h2 : st.location ≠ some "") : (renderParse st).location = st.location := by
  unfold renderParse
  rw [h]
  cases hl : st.location with
  | none => rfl
  | some v =>
    have hv : (v == "") = false := by
      simp only [beq_eq_false_iff_ne, ne_eq]
      intro he
      rw [he] at hl
      exact h2 hl
    simp [hv]

/-- The conflicts a bible update returns are exactly the fact loop's. -/
theorem bibleUpdate_conflicts (entityName : String) (st : BibleState)
    (facts : List ExtractedFact) (sceneFile : Option String) (apps : List String) :
    (bibleUpdate entityName st facts sceneFile apps).conflicts =
      (facts.foldl
        (processFact entityName st.location st.manualOverrides st.dismissedConflicts)
        ⟨[], [], st.attrRows, st.location⟩).conflicts := by
  simp only [bibleUpdate, doUpdateCore]
  split
  · rfl
  · rfl

/-- Part 1 of claim C6: when "location" is not manually overridden, no
conflict emitted by a bible update concerns the location attribute. -/
theorem location_never_conflicts (entityName : String) (st : BibleState)
    (facts : List ExtractedFact) (sceneFile : Option String) (apps : List String)
    (h : lookupOv st.manualOverrides "location" = none) :
    ∀ c ∈ (bibleUpdate entityName st facts sceneFile apps).conflicts,
      c.attr ≠ "location" := by
  intro c hc
  rw [bibleUpdate_conflicts] at hc
  rcases fold_no_location_conflict entityName st.location st.manualOverrides
      st.dismissedConflicts facts ⟨[], [], st.attrRows, st.location⟩ h c hc with h1 | h1
  · exact absurd h1 (List.not_mem_nil c)
  · exact h1

/-- Part 2 of claim C6: a single location fact (location not overridden)
clears on the empty string, records a change exactly when the new location
differs from the record's stored location, updates the pending location,
and yields no conflicts. -/
theorem single_location_fact_semantics (entityName : String) (st : BibleState)
    (f : ExtractedFact) (sceneFile : Option String) (apps : List String)
    (hfa : f.attr = "location")
    (h : lookupOv st.manualOverrides "location" = none)
    (hl0 : st.location ≠ some "") :
    (bibleUpdate entityName st [f] sceneFile apps).conflicts = []
    ∧ (bibleUpdate entityName st [f] sceneFile apps).changes =
        (if (if (f.value == "") = true then none else some f.value) = st.location then []
         else [mkChange "location" st.location
            (if (f.value == "") = true then none else some f.value) f])
    ∧ (bibleUpdate entityName st [f] sceneFile apps).state.location =
        (if (f.value == "") = true then none else some f.value) := by
  have hov : lookupOv st.manualOverrides f.attr = none := by rw [hfa]; exact h
  have hbeq : (f.attr == "location") = true := by rw [hfa]; exact beq_self_eq_true _
  have hnl : (if (f.value == "") = true then none else some f.value) ≠ some "" := by
    by_cases hv : (f.value == "") = true
    · rw [if_pos hv]
      exact Option.noConfusion
    · rw [if_neg hv]
      intro he
      have : f.value = "" := Option.some.inj he
      rw [this] at hv
      exact hv rfl
  by_cases heq : (if (f.value == "") = true then none else some f.value) = st.location
  · have hacc : (List.foldl
        (processFact entityName st.location st.manualOverrides st.dismissedConflicts)
        ⟨[], [], st.attrRows, st.location⟩ [f]) = ⟨[], [], st.attrRows, st.location⟩ := by
      simp only [List.foldl_cons, List.foldl_nil, processFact, hov, hbeq, if_pos, if_true]
      rw [if_neg (by simpa using heq)]
    simp only [bibleUpdate, doUpdateCore, hacc]
    split
    · refine ⟨rfl, ?_, ?_⟩
      · first
        | rfl
        | rw [if_pos heq]
      · show st.location = _
        first
        | rfl
        | exact heq.symm
        | rw [if_pos heq]
    · refine ⟨rfl, ?_, ?_⟩
      · first
        | rfl
        | rw [if_pos heq]
      · show (renderParse ⟨st.attrRows,
          List.foldl addSceneRow st.appRows (apps ++ sceneFile.toList),
          st.location, st.manualOverrides, st.dismissedConflicts⟩).location = _
        rw [renderParse_location_not_overridden _ (by exact h) (by exact hl0)]
        show st.location = _
        first
        | rfl
        | exact heq.symm
        | rw [if_pos heq]
  · have hacc : (List.foldl
        (processFact entityName st.location st.manualOverrides st.dismissedConflicts)
        ⟨[], [], st.attrRows, st.location⟩ [f]) =
        ⟨[mkChange "location" st.location
            (if (f.value == "") = true then none else some f.value) f], [],
          st.attrRows, (if (f.value == "") = true then none else some f.value)⟩ := by
      simp only [List.foldl_cons, List.foldl_nil, processFact, hov, hbeq, if_pos, if_true]
      rw [if_pos (by simpa using heq)]
      rfl
    have hcond : ¬ (([mkChange "location" st.location
        (if (f.value == "") = true then none else some f.value) f] :
          List AttributeChange).isEmpty = true ∧
        (List.foldl addSceneRow st.appRows (apps ++ sceneFile.toList)).length =
          st.appRows.length ∧
        ¬ overrideNeedsDisplay st.manualOverrides st.attrRows = true) := by
      intro hcc
      exact absurd hcc.1 (by simp [List.isEmpty])
    simp only [bibleUpdate, doUpdateCore, hacc]
    rw [if_neg hcond]
    refine ⟨rfl, ?_, ?_⟩
    · first
      | rfl
      | (rw [if_neg heq]; rfl)
      | rw [if_neg heq]
    · show (renderParse ⟨st.attrRows,
        List.foldl addSceneRow st.appRows (apps ++ sceneFile.toList),
        (if (f.value == "") = true then none else some f.value),
        st.manualOverrides, st.dismissedConflicts⟩).location = _
      rw [renderParse_location_not_overridden _ (by exact h) (by exact hnl)]

/-- C6: for a location fact not under manual override, the reconciler
treats the empty string as cleared (null); whenever the new location
differs from the record's stored location it records a change and updates
the location immediately; it never emits a conflict for the location
attribute; and "Elena entered the Vault" followed in a later scan by
"Elena left the Vault" moves the stored location from "The Vault" to null
with a recorded change each time. -/
theorem C6_location_clearing :
    (∀ entityName (st : BibleState) facts sceneFile apps,
      lookupOv st.manualOverrides "location" = none →
      ∀ c ∈ (bibleUpdate entityName st facts sceneFile apps).conflicts,
        c.attr ≠ "location")
  ∧ (∀ entityName (st : BibleState) (f : ExtractedFact) sceneFile apps,
      f.attr = "location" →
      lookupOv st.manualOverrides "location" = none →
      st.location ≠ some "" →
      (bibleUpdate entityName st [f] sceneFile apps).conflicts = []
      ∧ (bibleUpdate entityName st [f] sceneFile apps).changes =
          (if (if (f.value == "") = true then none else some f.value) = st.location then []
           else [mkChange "location" st.location
              (if (f.value == "") = true then none else some f.value) f])
      ∧ (bibleUpdate entityName st [f] sceneFile apps).state.location =
          (if (f.value == "") = true then none else some f.value))
  ∧ ((bibleUpdate "Elena" emptyState
        [wFact "location" "The Vault" "s1.md"] (some "s1.md") []).changes =
        [mkChange "location" none (some "The Vault") (wFact "location" "The Vault" "s1.md")]
     ∧ (bibleUpdate "Elena" emptyState
          [wFact "location" "The Vault" "s1.md"] (some "s1.md") []).state.location =
          some "The Vault"
     ∧ (bibleUpdate "Elena"
          (bibleUpdate "Elena" emptyState
            [wFact "location" "The Vault" "s1.md"] (some "s1.md") []).state
          [wFact "location" "" "s2.md"] (some "s2.md") []).changes =
          [mkChange "location" (some "The Vault") none (wFact "location" "" "s2.md")]
     ∧ (bibleUpdate "Elena"
          (bibleUpdate "Elena" emptyState
            [wFact "location" "The Vault" "s1.md"] (some "s1.md") []).state
          [wFact "location" "" "s2.md"] (some "s2.md") []).state.location = none
     ∧ (bibleUpdate "Elena" emptyState
          [wFact "location" "The Vault" "s1.md"] (some "s1.md") []).conflicts = []
     ∧ (bibleUpdate "Elena"
          (bibleUpdate "Elena" emptyState
            [wFact "location" "The Vault" "s1.md"] (some "s1.md") []).state
          [wFact "location" "" "s2.md"] (some "s2.md") []).conflicts = []) :=
  ⟨location_never_conflicts, single_location_fact_semantics, by decide⟩

/-- Witness for C6: a location fact against the fresh record records one
change, sets the location, and produces no conflicts. -/
theorem C6_location_clearing_witness :
    (bibleUpdate "Elena" emptyState [wFact "location" "The Hall" "s1.md"]
      (some "s1.md") []).conflicts = []
    ∧ (bibleUpdate "Elena" emptyState [wFact "location" "The Hall" "s1.md"]
        (some "s1.md") []).changes =
        (if (if ((wFact "location" "The Hall" "s1.md").value == "") = true
             then none else some (wFact "location" "The Hall" "s1.md").value) =
            emptyState.location then []
         else [mkChange "location" emptyState.location
            (if ((wFact "location" "The Hall" "s1.md").value == "") = true
             then none else some (wFact "location" "The Hall" "s1.md").value)
            (wFact "location" "The Hall" "s1.md")])
    ∧ (bibleUpdate "Elena" emptyState [wFact "location" "The Hall" "s1.md"]
        (some "s1.md") []).state.location =
        (if ((wFact "location" "The Hall" "s1.md").value == "") = true
         then none else some (wFact "location" "The Hall" "s1.md").value) :=
  C6_location_clearing.2.1 "Elena" emptyState (wFact "location" "The Hall" "s1.md")
    (some "s1.md") [] (by decide) (by decide) (by decide)

/- ────────────────────────────────────────────────────────────────────────
   C1 — manual-override invariant
   ──────────────────────────────────────────────────────────────────────── -/

/-- A single reconciliation never touches the manual-overrides map. -/
theorem bibleUpdate_manualOverrides (entityName : String) (st : BibleState)
    (facts : List ExtractedFact) (sceneFile : Option String) (apps : List String) :
    (bibleUpdate entityName st facts sceneFile apps).state.manualOverrides =
      st.manualOverrides := by
  simp only [bibleUpdate, doUpdateCore]
  split
  · rfl
  · rfl

/-- No sequence of reconciliations touches the manual-overrides map. -/
theorem applyScanOps_manualOverrides (entityName : String) (st : BibleState)
    (ops : List ScanOpInput) :
    (applyScanOps entityName st ops).manualOverrides = st.manualOverrides := by
  induction ops generalizing st with
  | nil => rfl
  | cons op rest ih =>
    show (applyScanOps entityName
      (bibleUpdate entityName st op.facts op.sceneFile op.appearances).state rest).manualOverrides =
      st.manualOverrides
    rw [ih, bibleUpdate_manualOverrides]

/-- C1: an attribute under manual override is never altered by any
sequence of `updateBibleNote` reconciliations — the override entry and the
authoritative stored value both persist; only the explicit accept-new-value
operation `forceUpdateAttribute` changes the stored value, and it also
removes the override on the attribute. -/
theorem C1_manual_override_invariant (entityName : String) (st : BibleState)
    (a v : String) (ops : List ScanOpInput)
    (h : lookupOv st.manualOverrides a = some v) :
    lookupOv (applyScanOps entityName st ops).manualOverrides a = some v
    ∧ effectiveValue (applyScanOps entityName st ops) a = some v
    ∧ ∀ w scene,
        lookupOv (forceUpdateAttribute
          (applyScanOps entityName st ops) a w scene).manualOverrides a = none
        ∧ effectiveValue (forceUpdateAttribute
            (applyScanOps entityName st ops) a w scene) a = some w := by
  have hov : lookupOv (applyScanOps entityName st ops).manualOverrides a = some v := by
    rw [applyScanOps_manualOverrides]
    exact h
  refine ⟨hov, ?_, ?_⟩
  · unfold effectiveValue
    rw [hov]
  · intro w scene
    constructor
    · exact lookupOv_filter_ne (applyScanOps entityName st ops).manualOverrides a
    · unfold forceUpdateAttribute
      rw [effectiveValue_renderParse_not_overridden _ a (by exact lookupOv_filter_ne _ a)]
      exact forceUpdateRows_value a w scene _

/-- Witness for C1: with hair manually overridden to "red", a scan
extracting hair "copper" neither changes the override nor the stored
value; forcing "copper" afterwards sets it and removes the override. -/
theorem C1_manual_override_invariant_witness :
    lookupOv (applyScanOps "Elena" ⟨[], [], none, [("hair", "red")], []⟩
      [⟨[wFact "hair" "copper" "s1.md"], some "s1.md", []⟩]).manualOverrides "hair" = some "red"
    ∧ effectiveValue (applyScanOps "Elena" ⟨[], [], none, [("hair", "red")], []⟩
        [⟨[wFact "hair" "copper" "s1.md"], some "s1.md", []⟩]) "hair" = some "red"
    ∧ ∀ w scene,
        lookupOv (forceUpdateAttribute
          (applyScanOps "Elena" ⟨[], [], none, [("hair", "red")], []⟩
            [⟨[wFact "hair" "copper" "s1.md"], some "s1.md", []⟩]) "hair" w scene).manualOverrides
          "hair" = none
        ∧ effectiveValue (forceUpdateAttribute
            (applyScanOps "Elena" ⟨[], [], none, [("hair", "red")], []⟩
              [⟨[wFact "hair" "copper" "s1.md"], some "s1.md", []⟩]) "hair" w scene) "hair" =
            some w :=
  C1_manual_override_invariant "Elena" ⟨[], [], none, [("hair", "red")], []⟩ "hair" "red"
    [⟨[wFact "hair" "copper" "s1.md"], some "s1.md", []⟩] (by decide)

/- ────────────────────────────────────────────────────────────────────────
   C10 — non-scene files are never scanned
   ──────────────────────────────────────────────────────────────────────── -/

/-- The claim's enumeration of non-scene files coincides with the
source's `isSceneFile` returning false. -/
theorem scene_filter_matches_spec (s : SettingsModel) (f : TFileModel) :
    spec_nonSceneFile s f ↔ isSceneFile s f = false := by
  unfold spec_nonSceneFile isSceneFile
  by_cases h1 : (f.extension != "md") = true
  · rw [if_pos h1]
    have h1' : f.extension ≠ "md" := by simpa using h1
    simp [h1']
  · rw [if_neg h1]
    have h1' : f.extension = "md" := by simpa using h1
    by_cases h2 : (sStarts f.path (dropSuffixIf s.bibleFolderPath "/" ++ "/")) = true
    · rw [if_pos h2]
      simp [h2]
    · rw [if_neg h2]
      by_cases h3 : (f.path == s.registryPath) = true
      · rw [if_pos h3]
        have h3' : f.path = s.registryPath := by simpa using h3
        simp [h3']
      · rw [if_neg h3]
        have h3' : f.path ≠ s.registryPath := by simpa using h3
        by_cases h4 : (parentDir s.registryPath != "" &&
            sStarts f.path (parentDir s.registryPath ++ "/")) = true
        · rw [if_pos h4]
          rw [Bool.and_eq_true] at h4
          have h4a : parentDir s.registryPath ≠ "" := by simpa using h4.1
          simp [h4a, h4.2]
        · rw [if_neg h4]
          have h4' : ¬ (parentDir s.registryPath ≠ "" ∧
              sStarts f.path (parentDir s.registryPath ++ "/") = true) := by
            intro hc
            apply h4
            rw [Bool.and_eq_true]
            exact ⟨by simpa using hc.1, hc.2⟩
          have h2' : ¬ sStarts f.path (dropSuffixIf s.bibleFolderPath "/" ++ "/") = true := h2
          by_cases h5 : (s.sceneFolders.isEmpty) = true
          · rw [if_pos h5]
            have h5' : s.sceneFolders = [] := by simpa using h5
            constructor
            · rintro (ha | hb | hc | hd | he)
              · exact absurd h1' ha
              · exact absurd hb h2'
              · exact absurd hc h3'
              · exact absurd hd h4'
              · exact absurd h5' he.1
            · intro hfalse
              exact absurd hfalse (by simp)
          · rw [if_neg h5]
            have h5' : s.sceneFolders ≠ [] := by simpa using h5
            rw [List.any_eq_false]
            constructor
            · rintro (ha | hb | hc | hd | he)
              · exact absurd h1' ha
              · exact absurd hb h2'
              · exact absurd hc h3'
              · exact absurd hd h4'
              · intro folder hf
                simpa using he.2 folder hf
            · intro hall
              refine Or.inr (Or.inr (Or.inr (Or.inr ⟨h5', ?_⟩)))
              intro folder hf
              simpa using hall folder hf

/-- C10: for every file that is not a scene file — not markdown, inside the
bible folder, the registry file, inside the registry's parent folder, or
(when scene folders are configured) outside every scene folder — `scanFile`
returns the empty `ScanResult` and performs no reads or writes: whatever
the scan pipeline would do, none of it runs. -/
theorem C10_non_scene_files_skipped (s : SettingsModel) (f : TFileModel) :
    (spec_nonSceneFile s f ↔ isSceneFile s f = false)
    ∧ (isSceneFile s f = false →
        ∀ pipeline, scanFile s f pipeline =
          ({ scannedPaths := [], entities := [], conflicts := [], durationMs := 0 }, [])) := by
  refine ⟨scene_filter_matches_spec s f, ?_⟩
  intro h pipeline
  unfold scanFile
  rw [h]
  rfl

/-- Witness for C10: a Chronicle-generated bible note under the configured
bible folder is skipped entirely, for an arbitrary concrete pipeline. -/
theorem C10_non_scene_files_skipped_witness :
    isSceneFile ⟨"_chronicle/bible", "_chronicle/registry.md", []⟩
      ⟨"_chronicle/bible/Elena.md", "md"⟩ = false
    ∧ scanFile ⟨"_chronicle/bible", "_chronicle/registry.md", []⟩
        ⟨"_chronicle/bible/Elena.md", "md"⟩
        (fun g => (⟨[g.path], ["Elena"], [], 1⟩, [ScanEffect.readFile g.path])) =
        ({ scannedPaths := [], entities := [], conflicts := [], durationMs := 0 }, []) :=
  ⟨by decide,
    (C10_non_scene_files_skipped ⟨"_chronicle/bible", "_chronicle/registry.md", []⟩
      ⟨"_chronicle/bible/Elena.md", "md"⟩).2 (by decide)
      (fun g => (⟨[g.path], ["Elena"], [], 1⟩, [ScanEffect.readFile g.path]))⟩

/- ────────────────────────────────────────────────────────────────────────
   C8 — fixed pattern priority, first pattern wins per attribute category
   ──────────────────────────────────────────────────────────────────────── -/

/-- The `addFact` fold equals mapping the fact constructor over the
first-wins selection of the candidate stream. -/
theorem addFact_foldl_eq (wt : String) (wsl : Nat) (fp now : String)
    (cands : List AttrCandidate) (seen : List String) (facts : List ExtractedFact) :
    (cands.foldl (addFactStep wt wsl fp now) (seen, facts)).2 =
      facts ++ (dedupFirstBy seen cands).map (factOfCandidate wt wsl fp now) := by
  induction cands generalizing seen facts with
  | nil => simp [dedupFirstBy]
  | cons c cs ih =>
    rw [List.foldl_cons]
    by_cases h : seen.contains c.cat = true
    · rw [show addFactStep wt wsl fp now (seen, facts) c = (seen, facts) from by
        unfold addFactStep
        rw [if_pos h]]
      rw [show dedupFirstBy seen (c :: cs) = dedupFirstBy seen cs from by
        simp only [dedupFirstBy]
        rw [if_pos h]]
      exact ih seen facts
    · rw [show addFactStep wt wsl fp now (seen, facts) c =
          (c.cat :: seen, facts ++ [factOfCandidate wt wsl fp now c]) from by
        unfold addFactStep
        rw [if_neg h]]
      rw [show dedupFirstBy seen (c :: cs) = c :: dedupFirstBy (c.cat :: seen) cs from by
        simp only [dedupFirstBy]
        rw [if_neg h]]
      rw [ih]
      simp

theorem dedupFirstBy_cats_nodup_aux (cands : List AttrCandidate) (seen : List String) :
    ((dedupFirstBy seen cands).map (·.cat)).Nodup ∧
    ∀ c ∈ dedupFirstBy seen cands, ¬ seen.contains c.cat = true := by
  induction cands generalizing seen with
  | nil => simp [dedupFirstBy]
  | cons c cs ih =>
    unfold dedupFirstBy
    by_cases h : seen.contains c.cat = true
    · rw [if_pos h]
      exact ih seen
    · rw [if_neg h]
      obtain ⟨ihn, ihs⟩ := ih (c.cat :: seen)
      refine ⟨?_, ?_⟩
      · simp only [List.map_cons, List.nodup_cons]
        refine ⟨?_, ihn⟩
        intro hmem
        obtain ⟨d, hd, hdc⟩ := List.mem_map.mp hmem
        have hns := ihs d hd
        apply hns
        rw [List.contains_cons]
        simp [hdc]
      · intro d hd
        rcases List.mem_cons.mp hd with he | hm
        · rw [he]
          exact h
        · intro hseen
          apply ihs d hm
          rw [List.contains_cons]
          simp only [Bool.or_eq_true]
          exact Or.inr hseen

theorem dedupFirstBy_find? (cands : List AttrCandidate) (seen : List String) (a : String)
    (ha : ¬ seen.contains a = true) :
    (dedupFirstBy seen cands).find? (fun c => c.cat == a) =
      cands.find? (fun c => c.cat == a) := by
  induction cands generalizing seen with
  | nil => simp [dedupFirstBy]
  | cons c cs ih =>
    unfold dedupFirstBy
    by_cases h : seen.contains c.cat = true
    · rw [if_pos h]
      have hca : (c.cat == a) = false := by
        simp only [beq_eq_false_iff_ne, ne_eq]
        intro he
        rw [he] at h
        exact ha h
      rw [List.find?_cons, hca]
      exact ih seen ha
    · rw [if_neg h]
      by_cases hca : (c.cat == a) = true
      · rw [List.find?_cons, List.find?_cons, hca]
      · rw [List.find?_cons, List.find?_cons]
        have hca' : (c.cat == a) = false := by simpa using hca
        rw [hca']
        apply ih (c.cat :: seen)
        rw [List.contains_cons]
        intro hcc
        rcases Bool.or_eq_true_iff.mp hcc with hx | hx
        · have hax : a = c.cat := by simpa using hx
          exact hca (by rw [hax]; simp)
        · exact ha hx

/-- C8: one window evaluation emits at most one fact per attribute
category; the fact emitted for a category is rendered from the first
candidate produced for it when the five patterns run in the fixed priority
order (possessive-noun-copula, possessive-adjective-noun, verb-attribution,
compound-adjective-prenominal, appositive) — later patterns cannot
overwrite an attribute already set in the same window evaluation. -/
theorem C8_pattern_priority (wt : String) (wsl : Nat) (fp now : String)
    (m1 m2 m3 m4 m5 : List RegexMatch) :
    ((extractPhysicalAttributes wt wsl fp now m1 m2 m3 m4 m5).map (·.attr)).Nodup
    ∧ ∀ a, (extractPhysicalAttributes wt wsl fp now m1 m2 m3 m4 m5).find?
          (fun f => f.attr == a) =
        ((orderedCandidates m1 m2 m3 m4 m5).find? (fun c => c.cat == a)).map
          (factOfCandidate wt wsl fp now) := by
  have he : extractPhysicalAttributes wt wsl fp now m1 m2 m3 m4 m5 =
      (dedupFirstBy [] (orderedCandidates m1 m2 m3 m4 m5)).map
        (factOfCandidate wt wsl fp now) := by
    unfold extractPhysicalAttributes
    rw [addFact_foldl_eq]
    rfl
  constructor
  · rw [he, List.map_map]
    exact (dedupFirstBy_cats_nodup_aux (orderedCandidates m1 m2 m3 m4 m5) []).1
  · intro a
    rw [he]
    rw [find?_map_of_pred (factOfCandidate wt wsl fp now) _ (fun c => c.cat == a)
      (fun c => rfl)]
    rw [dedupFirstBy_find? _ [] a (by simp)]

/- ────────────────────────────────────────────────────────────────────────
   C7 — location extraction keeps the last match in PATTERN order
   ──────────────────────────────────────────────────────────────────────── -/

/-- C7 counterexample: for the window text
"Elena left the Vault.\nThen Elena entered the Vault." the latest position
statement is the *entered* match (index 27, second line, value
"The Vault"), but `extractLocations` keeps the *left* match (index 0,
first line, clearing value "") because the left pattern is iterated last —
pattern order beats text position, contradicting "the latest position
statement in the window's text wins regardless of which directional
pattern matched it". -/
theorem C7_counterexample :
    extractLocations "Elena left the Vault.\nThen Elena entered the Vault." 1
      ⟨"Elena", []⟩ [⟨"The Vault", ["the Vault"]⟩] "s1.md" "t"
      [⟨"Elena", "the Vault", 27, "Elena entered the Vault"⟩] [] []
      [⟨"Elena", "the Vault", 0, "Elena left the Vault"⟩] =
      [locFactOf "Elena left the Vault.\nThen Elena entered the Vault." 1
        [⟨"The Vault", ["the Vault"]⟩] "s1.md" "t"
        (⟨"Elena", "the Vault", 0, "Elena left the Vault"⟩, true)]
    ∧ spec_latestLocationMatch (retainedLocMatches ⟨"Elena", []⟩
        [⟨"The Vault", ["the Vault"]⟩]
        [⟨"Elena", "the Vault", 27, "Elena entered the Vault"⟩] [] []
        [⟨"Elena", "the Vault", 0, "Elena left the Vault"⟩]) =
      some (⟨"Elena", "the Vault", 27, "Elena entered the Vault"⟩, false)
    ∧ (extractLocations "Elena left the Vault.\nThen Elena entered the Vault." 1
        ⟨"Elena", []⟩ [⟨"The Vault", ["the Vault"]⟩] "s1.md" "t"
        [⟨"Elena", "the Vault", 27, "Elena entered the Vault"⟩] [] []
        [⟨"Elena", "the Vault", 0, "Elena left the Vault"⟩]).map (fun f => f.value) = [""]
    ∧ (locFactOf "Elena left the Vault.\nThen Elena entered the Vault." 1
        [⟨"The Vault", ["the Vault"]⟩] "s1.md" "t"
        (⟨"Elena", "the Vault", 27, "Elena entered the Vault"⟩, false)).value = "The Vault"
    ∧ (0 : Nat) < 27 := by
  refine ⟨by decide, by decide, by decide, by decide, by decide⟩

/-- C7 (amended): location extraction returns at most one fact per window;
the fact kept is the last *retained match in pattern-iteration order* —
the four directional patterns applied in the fixed order entered,
arrived-at, was-in, left, each pattern's own matches in text order — so
the latest match of the last pattern with a retained match wins, not the
latest position statement in the window's text. -/
theorem C7_last_in_pattern_order (wt : String) (wsl : Nat) (entry : EntityRef)
    (locationEntries : List EntityRef) (fp now : String)
    (eM aM wM lM : List LocMatch) :
    extractLocations wt wsl entry locationEntries fp now eM aM wM lM =
      (if locationEntries.isEmpty then []
       else ((retainedLocMatches entry locationEntries eM aM wM lM).getLast?.map
         (locFactOf wt wsl locationEntries fp now)).toList)
    ∧ (extractLocations wt wsl entry locationEntries fp now eM aM wM lM).length ≤ 1 := by
  have hmain : extractLocations wt wsl entry locationEntries fp now eM aM wM lM =
      (if locationEntries.isEmpty then []
       else ((retainedLocMatches entry locationEntries eM aM wM lM).getLast?.map
         (locFactOf wt wsl locationEntries fp now)).toList) := by
    unfold extractLocations
    by_cases h : locationEntries.isEmpty = true
    · rw [if_pos h, if_pos h]
    · rw [if_neg h, if_neg h]
      have hfilter : ((retainedLocMatches entry locationEntries eM aM wM lM).map
          (locFactOf wt wsl locationEntries fp now)).filter
            (fun f => f.attr == "location") =
          (retainedLocMatches entry locationEntries eM aM wM lM).map
            (locFactOf wt wsl locationEntries fp now) := by
        apply List.filter_eq_self.mpr
        intro f hf
        obtain ⟨r, _, hr⟩ := List.mem_map.mp hf
        rw [← hr]
        rfl
      simp only [hfilter]
      rw [List.getLast?_map]
      cases (retainedLocMatches entry locationEntries eM aM wM lM).getLast? with
      | none => rfl
      | some r => rfl
  refine ⟨hmain, ?_⟩
  rw [hmain]
  by_cases h : locationEntries.isEmpty = true
  · rw [if_pos h]
    exact Nat.zero_le 1
  · rw [if_neg h]
    cases (retainedLocMatches entry locationEntries eM aM wM lM).getLast? with
    | none => exact Nat.zero_le 1
    | some r => exact Nat.le_refl 1

/- ────────────────────────────────────────────────────────────────────────
   C3 — at most one active conflict per dedup key
   ──────────────────────────────────────────────────────────────────────── -/

/-- C3 counterexample: merge a conflict for (Elena, hair, s1.md), dismiss
it, then merge two later scans' conflicts carrying different values.  The
`findIndex` of `mergeConflicts` hits the dismissed record first both
times, so both incoming records are appended as fresh actives — TWO active
records for one (entity, attribute, newScene) triple, violating the
at-most-one-active invariant. -/
theorem C3_counterexample :
    countActive
      (mergeConflicts
        (mergeConflicts
          (dismissAllForKey (mergeConflicts [] [c3Rec "v1"]) (c3Rec "v1") "" "2026-01-01")
          [c3Rec "v2"])
        [c3Rec "v3"])
      "Elena" "hair" "s1.md" = 2 := by decide

theorem sameKey_iff (e c : ConflictRecord) :
    sameKey e c = true ↔ keyOf e = keyOf c := by
  unfold sameKey keyOf
  simp [Prod.ext_iff, and_assoc]

/-- Keys appearing after a merge step come from the log or the incoming
record. -/
theorem mergeStep_keys (l : List ConflictRecord) (c : ConflictRecord) :
    ∀ k ∈ (mergeStep l c).map keyOf, k ∈ l.map keyOf ∨ k = keyOf c := by
  induction l with
  | nil =>
    intro k hk
    simp only [mergeStep, List.map_cons, List.map_nil] at hk
    right
    simpa using hk
  | cons e rest ih =>
    intro k hk
    unfold mergeStep at hk
    by_cases hs : sameKey e c = true
    · rw [if_pos hs] at hk
      by_cases ha : (e.status == ConflictStatus.active) = true
      · rw [if_pos ha] at hk
        rcases List.mem_map.mp hk with ⟨r, hr, hrk⟩
        rcases List.mem_cons.mp hr with he | hm
        · left
          rw [he] at hrk
          rw [← hrk]
          have hkk : keyOf { e with newValue := c.newValue, newLine := c.newLine } =
              keyOf e := rfl
          rw [hkk]
          exact List.mem_map_of_mem keyOf (List.mem_cons_self e rest)
        · left
          rw [← hrk]
          exact List.mem_map_of_mem keyOf (List.mem_cons_of_mem e hm)
      · rw [if_neg ha] at hk
        by_cases hv : (e.newValue != c.newValue) = true
        · rw [if_pos hv] at hk
          rcases List.mem_map.mp hk with ⟨r, hr, hrk⟩
          rcases List.mem_cons.mp hr with he | hm
          · left
            rw [he] at hrk
            rw [← hrk]
            exact List.mem_map_of_mem keyOf (List.mem_cons_self e rest)
          · rcases List.mem_append.mp hm with h1 | h1
            · left
              rw [← hrk]
              exact List.mem_map_of_mem keyOf (List.mem_cons_of_mem e h1)
            · right
              have : r = c := by simpa using h1
              rw [← hrk, this]
        · rw [if_neg hv] at hk
          exact Or.inl hk
    · rw [if_neg hs] at hk
      rcases List.mem_map.mp hk with ⟨r, hr, hrk⟩
      rcases List.mem_cons.mp hr with he | hm
      · left
        rw [he] at hrk
        rw [← hrk]
        exact List.mem_map_of_mem keyOf (List.mem_cons_self e rest)
      · rcases ih k (by rw [← hrk]; exact List.mem_map_of_mem keyOf hm) with h1 | h1
        · left
          rcases List.mem_map.mp h1 with ⟨q, hq, hqk⟩
          rw [← hqk]
          exact List.mem_map_of_mem keyOf (List.mem_cons_of_mem e hq)
        · exact Or.inr h1

/-- The merge-without-dismissals invariant: every record active, keys
pairwise distinct.  Preserved by `mergeStep` for active incoming records. -/
theorem mergeStep_inv (l : List ConflictRecord) (c : ConflictRecord)
    (hc : c.status = ConflictStatus.active)
    (hact : ∀ r ∈ l, r.status = ConflictStatus.active)
    (hnd : (l.map keyOf).Nodup) :
    (∀ r ∈ mergeStep l c, r.status = ConflictStatus.active)
    ∧ ((mergeStep l c).map keyOf).Nodup := by
  induction l with
  | nil =>
    refine ⟨?_, by simp [mergeStep]⟩
    intro r hr
    have : r = c := by simpa [mergeStep] using hr
    rw [this]
    exact hc
  | cons e rest ih =>
    have hea : e.status = ConflictStatus.active := hact e (List.mem_cons_self e rest)
    have hresta : ∀ r ∈ rest, r.status = ConflictStatus.active :=
      fun r hr => hact r (List.mem_cons_of_mem e hr)
    simp only [List.map_cons, List.nodup_cons] at hnd
    obtain ⟨hke, hndr⟩ := hnd
    unfold mergeStep
    by_cases hs : sameKey e c = true
    · rw [if_pos hs]
      rw [if_pos (by rw [hea]; exact beq_self_eq_true _)]
      constructor
      · intro r hr
        rcases List.mem_cons.mp hr with he | hm
        · rw [he]
          exact hea
        · exact hresta r hm
      · simp only [List.map_cons, List.nodup_cons]
        exact ⟨hke, hndr⟩
    · rw [if_neg hs]
      obtain ⟨iha, ihn⟩ := ih hresta hndr
      constructor
      · intro r hr
        rcases List.mem_cons.mp hr with he | hm
        · rw [he]
          exact hea
        · exact iha r hm
      · simp only [List.map_cons, List.nodup_cons]
        refine ⟨?_, ihn⟩
        intro hmem
        rcases mergeStep_keys rest c (keyOf e) hmem with h1 | h1
        · exact hke h1
        · exact hs ((sameKey_iff e c).mpr h1)

/-- `filter` length is monotone along predicate implication. -/
theorem filter_length_mono {α : Type} (p q : α → Bool)
    (h : ∀ x, p x = true → q x = true) (l : List α) :
    (l.filter p).length ≤ (l.filter q).length := by
  induction l with
  | nil => exact Nat.le_refl 0
  | cons x xs ih =>
    simp only [List.filter_cons]
    by_cases hp : p x = true
    · rw [hp, h x hp]
      simpa using ih
    · rw [Bool.not_eq_true] at hp
      rw [hp]
      cases q x
      · exact ih
      · exact Nat.le_succ_of_le ih

/-- With pairwise-distinct keys there is at most one record per key. -/
theorem nodup_keys_filter_le (l : List ConflictRecord)
    (hnd : (l.map keyOf).Nodup) (k : String × String × String) :
    (l.filter (fun c => keyOf c == k)).length ≤ 1 := by
  induction l with
  | nil => exact Nat.zero_le 1
  | cons e rest ih =>
    simp only [List.map_cons, List.nodup_cons] at hnd
    obtain ⟨hke, hndr⟩ := hnd
    simp only [List.filter_cons]
    by_cases hp : (keyOf e == k) = true
    · rw [hp]
      have hek : keyOf e = k := by simpa using hp
      have hrest : rest.filter (fun c => keyOf c == k) = [] := by
        apply List.filter_eq_nil_iff.mpr
        intro c hcmem hck
        apply hke
        have hck' : keyOf c = k := by simpa using hck
        rw [← hek] at hck'
        rw [← hck']
        exact List.mem_map_of_mem keyOf hcmem
      simp [hrest]
    · rw [Bool.not_eq_true] at hp
      rw [hp]
      exact ih hndr

/-- C3 (amended): over any sequence of `mergeConflicts` batches of active
records (which is how `doUpdate` emits conflicts) starting from the empty
log, at most one record per dedup key exists at all — hence at most one
active record per (entity, attribute, newScene) triple.  The invariant
does not survive `dismissConflict`: once a dismissed record sits first for
a key, merges with differing values append fresh actives without
deduplicating against the existing active one (see the counterexample). -/
theorem C3_at_most_one_active_without_dismissal
    (batches : List (List ConflictRecord))
    (hb : ∀ b ∈ batches, ∀ c ∈ b, c.status = ConflictStatus.active)
    (ent a scene : String) :
    countActive (batches.foldl mergeConflicts []) ent a scene ≤ 1 := by
  have hinv : ∀ (bs : List (List ConflictRecord)) (l : List ConflictRecord),
      (∀ b ∈ bs, ∀ c ∈ b, c.status = ConflictStatus.active) →
      (∀ r ∈ l, r.status = ConflictStatus.active) → ((l.map keyOf).Nodup) →
      (∀ r ∈ bs.foldl mergeConflicts l, r.status = ConflictStatus.active)
      ∧ ((bs.foldl mergeConflicts l).map keyOf).Nodup := by
    intro bs
    induction bs with
    | nil => exact fun l _ ha hn => ⟨ha, hn⟩
    | cons b rest ih =>
      intro l hbs ha hn
      rw [List.foldl_cons]
      have hstep : ∀ (cs : List ConflictRecord) (m : List ConflictRecord),
          (∀ c ∈ cs, c.status = ConflictStatus.active) →
          (∀ r ∈ m, r.status = ConflictStatus.active) → ((m.map keyOf).Nodup) →
          (∀ r ∈ mergeConflicts m cs, r.status = ConflictStatus.active)
          ∧ ((mergeConflicts m cs).map keyOf).Nodup := by
        intro cs
        induction cs with
        | nil => exact fun m _ ha hn => ⟨ha, hn⟩
        | cons c cs2 ih2 =>
          intro m hcs ha2 hn2
          have h1 := mergeStep_inv m c (hcs c (List.mem_cons_self c cs2)) ha2 hn2
          have := ih2 (mergeStep m c)
            (fun x hx => hcs x (List.mem_cons_of_mem c hx)) h1.1 h1.2
          simpa [mergeConflicts] using this
      have h1 := hstep b l (hbs b (List.mem_cons_self b rest)) ha hn
      exact ih (mergeConflicts l b)
        (fun x hx => hbs x (List.mem_cons_of_mem b hx)) h1.1 h1.2
  obtain ⟨-, hnd⟩ := hinv batches [] hb (by intro r hr; cases hr) (by simp)
  unfold countActive
  calc ((batches.foldl mergeConflicts []).filter
      (fun c => c.entity == ent && c.attr == a && c.newScene == scene &&
        c.status == ConflictStatus.active)).length
      ≤ ((batches.foldl mergeConflicts []).filter
          (fun c => keyOf c == (ent, a, scene))).length := by
        apply filter_length_mono
        intro x hx
        simp only [Bool.and_eq_true] at hx
        unfold keyOf
        simp only [beq_iff_eq, Prod.ext_iff]
        have h1 : x.entity = ent := by simpa using hx.1.1.1
        have h2 : x.attr = a := by simpa using hx.1.1.2
        have h3 : x.newScene = scene := by simpa using hx.1.2
        exact ⟨h1, h2, h3⟩
    _ ≤ 1 := nodup_keys_filter_le _ hnd (ent, a, scene)

/-- Witness for the amended C3: two merges of active records for the same
key leave a single active record. -/
theorem C3_at_most_one_active_without_dismissal_witness :
    countActive ([[c3Rec "v1"], [c3Rec "v2"]].foldl mergeConflicts [])
      "Elena" "hair" "s1.md" ≤ 1 :=
  C3_at_most_one_active_without_dismissal [[c3Rec "v1"], [c3Rec "v2"]]
    (by decide) "Elena" "hair" "s1.md"

/- ────────────────────────────────────────────────────────────────────────
   C5 — dismissal stability (code bug: the dismissed-marker dedup check of
   appendDismissedConflictToFrontmatter matches attribute / value / scene
   substrings INDEPENDENTLY across the frontmatter, contradicting its own
   comment "skip if this exact (attribute, value, scene) is already
   present"; when the skip misfires the dismissal marker is never written
   and a re-scan of the unchanged document re-creates an active conflict
   for the dismissed triple)
   ──────────────────────────────────────────────────────────────────────── -/

/-- C5 evaluated at the failing input: after the conflict
(Elena, hair, s1.md, value "blue") is dismissed, the bible note holds no
(hair, "blue", s1.md) marker (the component-wise dedup skipped it) and the
log has zero active records for the triple; yet re-scanning the unchanged
document — which yields the SAME value "blue" again — re-emits the
conflict and the log merge (whose first dedup-key match is the dismissed
"blu" record) appends a fresh ACTIVE conflict for the dismissed triple,
contradicting the claim that this can never happen. -/
theorem C5_dismissal_not_stable :
    isDismissed c5AfterF.1.dismissedConflicts "hair" "blue" "s1.md" = false
    ∧ countActive c5AfterF.2 "Elena" "hair" "s1.md" = 0
    ∧ c5AfterG.1.conflicts = [c5CC]
    ∧ countActive c5AfterG.2 "Elena" "hair" "s1.md" = 1 := by
  refine ⟨by decide, by decide, by decide, by decide⟩

/- ────────────────────────────────────────────────────────────────────────
   C9 — full-scan ordering and tie-break rules
   ──────────────────────────────────────────────────────────────────────── -/

theorem insertByMtime_perm (x : FileScan) (l : List FileScan) :
    (insertByMtime x l).Perm (x :: l) := by
  induction l with
  | nil => exact List.Perm.refl _
  | cons y ys ih =>
    unfold insertByMtime
    by_cases h : y.mtime ≤ x.mtime
    · rw [if_pos h]
      exact (List.Perm.cons y ih).trans (List.Perm.swap x y ys)
    · rw [if_neg h]

theorem sortByMtime_perm (l : List FileScan) : (sortByMtime l).Perm l := by
  induction l with
  | nil => exact List.Perm.refl _
  | cons f fs ih =>
    show (insertByMtime f (sortByMtime fs)).Perm (f :: fs)
    exact (insertByMtime_perm f (sortByMtime fs)).trans (List.Perm.cons f ih)

theorem insertByMtime_pairwise (x : FileScan) (l : List FileScan)
    (h : l.Pairwise (fun p q => p.mtime ≤ q.mtime)) :
    (insertByMtime x l).Pairwise (fun p q => p.mtime ≤ q.mtime) := by
  induction l with
  | nil => simp [insertByMtime]
  | cons y ys ih =>
    rw [List.pairwise_cons] at h
    obtain ⟨hy, hys⟩ := h
    unfold insertByMtime
    by_cases hle : y.mtime ≤ x.mtime
    · rw [if_pos hle]
      rw [List.pairwise_cons]
      refine ⟨?_, ih hys⟩
      intro z hz
      rcases List.mem_cons.mp (((insertByMtime_perm x ys).mem_iff).mp hz) with hzx | hzy
      · rw [hzx]
        exact hle
      · exact hy z hzy
    · rw [if_neg hle]
      have hxy : x.mtime ≤ y.mtime := Int.le_of_lt (Int.lt_of_not_ge hle)
      rw [List.pairwise_cons]
      refine ⟨?_, List.pairwise_cons.mpr ⟨hy, hys⟩⟩
      intro z hz
      rcases List.mem_cons.mp hz with hzy | hzys
      · rw [hzy]
        exact hxy
      · exact Int.le_trans hxy (hy z hzys)

theorem sortByMtime_pairwise (l : List FileScan) :
    (sortByMtime l).Pairwise (fun p q => p.mtime ≤ q.mtime) := by
  induction l with
  | nil => exact List.Pairwise.nil
  | cons f fs ih => exact insertByMtime_pairwise f (sortByMtime fs) ih

theorem getEntity_setEntity_same (e : String) (m : List (String × ExtractedFact))
    (g : List (String × List (String × ExtractedFact))) :
    getEntity (setEntity e m g) e = m := by
  induction g with
  | nil => simp [setEntity, getEntity]
  | cons p ps ih =>
    unfold setEntity
    by_cases h : (p.1 == e) = true
    · rw [if_pos h]
      simp [getEntity]
    · rw [if_neg h]
      unfold getEntity
      rw [List.find?_cons]
      rw [show (p.1 == e) = false from by simpa using h]
      exact ih

theorem getEntity_setEntity_other (e e' : String) (m : List (String × ExtractedFact))
    (g : List (String × List (String × ExtractedFact))) (hne : (e == e') = false) :
    getEntity (setEntity e m g) e' = getEntity g e' := by
  induction g with
  | nil => simp [setEntity, getEntity, hne]
  | cons p ps ih =>
    unfold setEntity
    by_cases h : (p.1 == e) = true
    · rw [if_pos h]
      unfold getEntity
      rw [List.find?_cons, List.find?_cons]
      rw [show (p.1 == e') = false from by
        have hp : p.1 = e := by simpa using h
        rw [hp]
        exact hne]
      rw [hne]
    · rw [if_neg h]
      unfold getEntity
      rw [List.find?_cons, List.find?_cons]
      cases hpe : (p.1 == e') with
      | true => rfl
      | false => exact ih

/-- One file's entry fold, characterised per entity as accumulating that
entity's facts in order. -/
theorem getEntity_accumFile (entries : List (String × List ExtractedFact))
    (g : List (String × List (String × ExtractedFact))) (e : String) :
    getEntity (entries.foldl
      (fun g p => setEntity p.1 (accumEntityFacts (getEntity g p.1) p.2) g) g) e =
      accumEntityFacts (getEntity g e)
        ((entries.filter (fun p => p.1 == e)).flatMap (·.2)) := by
  induction entries generalizing g with
  | nil => rfl
  | cons p ps ih =>
    rw [List.foldl_cons, ih, List.filter_cons]
    by_cases h : (p.1 == e) = true
    · rw [if_pos h]
      have hp : p.1 = e := by simpa using h
      rw [List.flatMap_cons]
      rw [show accumEntityFacts (getEntity g e) (p.2 ++
          (ps.filter (fun q => q.1 == e)).flatMap (·.2)) =
          accumEntityFacts (accumEntityFacts (getEntity g e) p.2)
            ((ps.filter (fun q => q.1 == e)).flatMap (·.2)) from
        List.foldl_append _ _ _ _]
      rw [hp, getEntity_setEntity_same]
    · rw [if_neg h]
      rw [getEntity_setEntity_other p.1 e _ g (by simpa using h)]

theorem getEntity_accumFiles (files : List FileScan)
    (g : List (String × List (String × ExtractedFact))) (e : String) :
    getEntity (files.foldl accumFile g) e =
      accumEntityFacts (getEntity g e)
        (files.flatMap (fun f => (f.factMap.filter (fun p => p.1 == e)).flatMap (·.2))) := by
  induction files generalizing g with
  | nil => rfl
  | cons f fs ih =>
    rw [List.foldl_cons, ih, List.flatMap_cons]
    rw [show accumFile g f = f.factMap.foldl
      (fun g p => setEntity p.1 (accumEntityFacts (getEntity g p.1) p.2) g) g from rfl]
    rw [getEntity_accumFile]
    exact (List.foldl_append _ _ _ _).symm

/-- Lookup on a cons cell of an association list. -/
theorem lookupAttr_cons (x : String) (w : ExtractedFact)
    (ps : List (String × ExtractedFact)) (a : String) :
    lookupAttr ((x, w) :: ps) a =
      if (x == a) = true then some w else lookupAttr ps a := by
  by_cases hx : (x == a) = true
  · rw [if_pos hx]
    unfold lookupAttr
    rw [@List.find?_cons_of_pos _ (fun p => p.1 == a) (x, w) ps hx]
    rfl
  · rw [if_neg hx]
    unfold lookupAttr
    rw [@List.find?_cons_of_neg _ (fun p => p.1 == a) (x, w) ps (by simpa using hx)]

theorem lookupAttr_setAttrFact (k : String) (v : ExtractedFact)
    (m : List (String × ExtractedFact)) (a : String) :
    lookupAttr (setAttrFact k v m) a =
      if (k == a) = true then some v else lookupAttr m a := by
  induction m with
  | nil =>
    cases hka : (k == a) <;> simp [setAttrFact, lookupAttr_cons, hka, lookupAttr]
  | cons p ps ih =>
    obtain ⟨px, pw⟩ := p
    by_cases h : (px == k) = true
    · have h1 : px = k := by simpa using h
      cases hka : (k == a) <;>
        simp [setAttrFact, h, lookupAttr_cons, h1, hka]
    · have h1 : (px == k) = false := by simpa using h
      by_cases hka : (k == a) = true
      · have hk2 : k = a := by simpa using hka
        have hpa : (px == a) = false := by
          simp only [beq_eq_false_iff_ne, ne_eq]
          intro he
          apply h
          simp [he, hk2]
        simp [setAttrFact, h1, lookupAttr_cons, hka, hpa, ih]
      · have hka2 : (k == a) = false := by simpa using hka
        cases hpa : (px == a) <;>
          simp [setAttrFact, h1, lookupAttr_cons, hka2, hpa, ih]

theorem lookupAttr_append_single (m : List (String × ExtractedFact))
    (k : String) (v : ExtractedFact) (a : String) :
    lookupAttr (m ++ [(k, v)]) a =
      (lookupAttr m a).or (if (k == a) = true then some v else none) := by
  unfold lookupAttr
  rw [List.find?_append]
  cases hm : m.find? (fun p => p.1 == a) with
  | some p => rfl
  | none =>
    simp only [Option.map_none', Option.none_or]
    rw [List.find?_cons]
    cases hk : (k == a) with
    | true => rfl
    | false => rfl

/-- `(x :: l).getLast?` preferring the tail. -/
theorem getLast?_cons_or {α : Type} (x : α) (l : List α) :
    (x :: l).getLast? = (l.getLast?).or (some x) := by
  induction l generalizing x with
  | nil => rfl
  | cons y ys ih =>
    rw [List.getLast?_cons_cons, ih y]
    cases ys.getLast? <;> rfl

/-- Accumulation of an ordinary attribute: first occurrence wins, earlier
state takes precedence. -/
theorem accum_ordinary (a : String) (ha : ¬ a = "location")
    (facts : List ExtractedFact) (m : List (String × ExtractedFact)) :
    lookupAttr (accumEntityFacts m facts) a =
      (lookupAttr m a).or ((facts.filter (fun f => f.attr == a)).head?) := by
  induction facts generalizing m with
  | nil =>
    show lookupAttr m a = (lookupAttr m a).or none
    rw [Option.or_none]
  | cons f fs ih =>
    show lookupAttr (accumEntityFacts (accumFactStep m f) fs) a = _
    rw [ih, List.filter_cons]
    unfold accumFactStep
    by_cases hl : (f.attr == "location") = true
    · have hfl : f.attr = "location" := by simpa using hl
      have hfa : (f.attr == a) = false := by
        simp only [beq_eq_false_iff_ne, ne_eq, hfl]
        intro he
        exact ha he.symm
      have hlocA : (("location" : String) == a) = false := by
        simp only [beq_eq_false_iff_ne, ne_eq]
        intro he
        exact ha he.symm
      rw [if_pos hl, lookupAttr_setAttrFact, hlocA, hfa]
      simp
    · have hl2 : (f.attr == "location") = false := by simpa using hl
      rw [if_neg hl]
      by_cases hp : (m.find? (fun p => p.1 == f.attr)).isSome = true
      · rw [if_pos hp]
        by_cases hfa : (f.attr == a) = true
        · have hq : f.attr = a := by simpa using hfa
          have hsome : ∃ v, lookupAttr m a = some v := by
            unfold lookupAttr
            rw [← hq]
            rcases Option.isSome_iff_exists.mp hp with ⟨p, hp2⟩
            refine ⟨p.2, ?_⟩
            rw [hp2]
            rfl
          rcases hsome with ⟨v, hv⟩
          rw [hfa, hv]
          simp
        · have hfa2 : (f.attr == a) = false := by simpa using hfa
          rw [hfa2]
          simp
      · rw [if_neg hp]
        rw [lookupAttr_append_single]
        by_cases hfa : (f.attr == a) = true
        · have hq : f.attr = a := by simpa using hfa
          have hnone : lookupAttr m a = none := by
            unfold lookupAttr
            rw [← hq]
            cases hm : m.find? (fun p => p.1 == f.attr) with
            | none => rfl
            | some p =>
              rw [hm] at hp
              exact absurd rfl hp
          rw [hfa, hnone]
          simp
        · have hfa2 : (f.attr == a) = false := by simpa using hfa
          rw [hfa2]
          simp
  
/-- Accumulation of the location attribute: the last occurrence wins over
any earlier state. -/
theorem accum_location (facts : List ExtractedFact)
    (m : List (String × ExtractedFact)) :
    lookupAttr (accumEntityFacts m facts) "location" =
      ((facts.filter (fun f => f.attr == "location")).getLast?).or
        (lookupAttr m "location") := by
  induction facts generalizing m with
  | nil =>
    show lookupAttr m "location" = Option.or none _
    rw [Option.none_or]
  | cons f fs ih =>
    show lookupAttr (accumEntityFacts (accumFactStep m f) fs) "location" = _
    rw [ih, List.filter_cons]
    unfold accumFactStep
    by_cases hl : (f.attr == "location") = true
    · rw [if_pos hl, hl, lookupAttr_setAttrFact]
      rw [if_pos (show (("location" : String) == "location") = true by simp)]
      rw [if_pos (rfl : true = true), getLast?_cons_or, Option.or_assoc]
      rfl
    · have hl2 : (f.attr == "location") = false := by simpa using hl
      rw [if_neg hl, hl2]
      by_cases hp : (m.find? (fun p => p.1 == f.attr)).isSome = true
      · rw [if_pos hp]
        simp
      · rw [if_neg hp, lookupAttr_append_single, hl2]
        simp

theorem setEntity_keys_mem (e : String) (m : List (String × ExtractedFact))
    (g : List (String × List (String × ExtractedFact))) (k : String)
    (hk : k ∈ (setEntity e m g).map (·.1)) : k ∈ g.map (·.1) ∨ k = e := by
  induction g with
  | nil =>
    right
    simpa [setEntity] using hk
  | cons p ps ih =>
    unfold setEntity at hk
    by_cases h : (p.1 == e) = true
    · rw [if_pos h] at hk
      rcases List.mem_cons.mp hk with h1 | h1
      · exact Or.inr h1
      · exact Or.inl (List.mem_cons_of_mem _ h1)
    · rw [if_neg h] at hk
      rcases List.mem_cons.mp hk with h1 | h1
      · exact Or.inl (by rw [h1]; exact List.mem_cons_self _ _)
      · rcases ih h1 with h2 | h2
        · exact Or.inl (List.mem_cons_of_mem _ h2)
        · exact Or.inr h2

theorem setEntity_keys_nodup (e : String) (m : List (String × ExtractedFact))
    (g : List (String × List (String × ExtractedFact)))
    (h : (g.map (·.1)).Nodup) : ((setEntity e m g).map (·.1)).Nodup := by
  induction g with
  | nil => simp [setEntity]
  | cons p ps ih =>
    simp only [List.map_cons, List.nodup_cons] at h
    obtain ⟨hp, hps⟩ := h
    unfold setEntity
    by_cases hpe : (p.1 == e) = true
    · rw [if_pos hpe]
      simp only [List.map_cons, List.nodup_cons]
      refine ⟨?_, hps⟩
      have he : p.1 = e := by simpa using hpe
      rw [← he]
      exact hp
    · rw [if_neg hpe]
      simp only [List.map_cons, List.nodup_cons]
      refine ⟨?_, ih hps⟩
      intro hmem
      rcases setEntity_keys_mem e m ps p.1 hmem with h1 | h1
      · exact hp h1
      · exact absurd h1 (by simpa using hpe)

theorem accumFile_keys_nodup (f : FileScan)
    (g : List (String × List (String × ExtractedFact)))
    (h : (g.map (·.1)).Nodup) : ((accumFile g f).map (·.1)).Nodup := by
  unfold accumFile
  induction f.factMap generalizing g with
  | nil => exact h
  | cons p ps ih =>
    rw [List.foldl_cons]
    exact ih _ (setEntity_keys_nodup p.1 _ g h)

theorem fullScanAccum_keys_nodup (files : List FileScan) :
    ((fullScanAccum files).map (·.1)).Nodup := by
  unfold fullScanAccum
  have hgen : ∀ (fs : List FileScan) (g : List (String × List (String × ExtractedFact))),
      (g.map (·.1)).Nodup → ((fs.foldl accumFile g).map (·.1)).Nodup := by
    intro fs
    induction fs with
    | nil => exact fun g h => h
    | cons f fs2 ih =>
      intro g h
      rw [List.foldl_cons]
      exact ih _ (accumFile_keys_nodup f g h)
  exact hgen (sortByMtime files) [] (by simp)

/-- C9: a full scan visits documents oldest-modified first (the processed
list is an ascending-mtime permutation of the corpus); facts accumulate
globally before one write per entity (the write list has pairwise-distinct
entities); and the tie-break is: for an ordinary attribute the FIRST
occurrence across the whole ordered corpus wins, for "location" the LAST
occurrence wins. -/
theorem C9_fullscan_order_and_tiebreak (files : List FileScan) :
    (sortByMtime files).Pairwise (fun p q => p.mtime ≤ q.mtime)
    ∧ (sortByMtime files).Perm files
    ∧ (∀ e a, ¬ a = "location" →
        lookupAttr (getEntity (fullScanAccum files) e) a =
          ((entityFactStream files e).filter (fun f => f.attr == a)).head?)
    ∧ (∀ e, lookupAttr (getEntity (fullScanAccum files) e) "location" =
        ((entityFactStream files e).filter (fun f => f.attr == "location")).getLast?)
    ∧ ((fullScanWrites files).map (·.1)).Nodup := by
  have hacc : ∀ e, getEntity (fullScanAccum files) e =
      accumEntityFacts [] (entityFactStream files e) := by
    intro e
    unfold fullScanAccum entityFactStream
    rw [getEntity_accumFiles]
    rfl
  refine ⟨sortByMtime_pairwise files, sortByMtime_perm files, ?_, ?_, ?_⟩
  · intro e a ha
    rw [hacc e, accum_ordinary a ha]
    rw [show lookupAttr [] a = none from rfl]
    rw [Option.none_or]
  · intro e
    rw [hacc e, accum_location]
    rw [show lookupAttr [] "location" = none from rfl]
    rw [Option.or_none]
  · unfold fullScanWrites
    rw [show ((fullScanAccum files).map
        (fun p => (p.1, p.2.map (·.2)))).map (·.1) = (fullScanAccum files).map (·.1) from by
      rw [List.map_map]
      rfl]
    exact fullScanAccum_keys_nodup files

/-- Witness for C9 at a concrete two-file corpus (newer file listed
first): the sorted order is ascending, hair keeps the older file's value,
location keeps the newer file's value, and one write per entity occurs. -/
theorem C9_fullscan_order_and_tiebreak_witness :
    lookupAttr (getEntity (fullScanAccum
      [⟨"b.md", 5, [("Elena", [wFact "hair" "silver" "b.md", wFact "location" "The Hall" "b.md"])]⟩,
       ⟨"a.md", 2, [("Elena", [wFact "hair" "copper" "a.md", wFact "location" "The Vault" "a.md"])]⟩])
      "Elena") "hair" =
      ((entityFactStream
        [⟨"b.md", 5, [("Elena", [wFact "hair" "silver" "b.md", wFact "location" "The Hall" "b.md"])]⟩,
         ⟨"a.md", 2, [("Elena", [wFact "hair" "copper" "a.md", wFact "location" "The Vault" "a.md"])]⟩]
        "Elena").filter (fun f => f.attr == "hair")).head?
    ∧ lookupAttr (getEntity (fullScanAccum
        [⟨"b.md", 5, [("Elena", [wFact "hair" "silver" "b.md", wFact "location" "The Hall" "b.md"])]⟩,
         ⟨"a.md", 2, [("Elena", [wFact "hair" "copper" "a.md", wFact "location" "The Vault" "a.md"])]⟩])
        "Elena") "hair" = some (wFact "hair" "copper" "a.md") :=
  ⟨(C9_fullscan_order_and_tiebreak
      [⟨"b.md", 5, [("Elena", [wFact "hair" "silver" "b.md", wFact "location" "The Hall" "b.md"])]⟩,
       ⟨"a.md", 2, [("Elena", [wFact "hair" "copper" "a.md", wFact "location" "The Vault" "a.md"])]⟩]).2.2.1
    "Elena" "hair" (by decide), by decide⟩

/- ────────────────────────────────────────────────────────────────────────
   C2 — idempotence of a re-scan over an unchanged document
   ──────────────────────────────────────────────────────────────────────── -/

theorem updateRowFirst_find?_ne (a b v src : String) (h : ¬ a = b)
    (l : List AttributeTableRow) :
    (updateRowFirst a v src l).find? (fun r => r.attr == b) =
      l.find? (fun r => r.attr == b) := by
  induction l with
  | nil => rfl
  | cons r rs ih =>
    unfold updateRowFirst
    by_cases hr : (r.attr == a) = true
    · rw [if_pos hr]
      have hra : r.attr = a := by simpa using hr
      have hrb : (r.attr == b) = false := by
        simp only [beq_eq_false_iff_ne, ne_eq, hra]
        exact h
      simp only [List.find?_cons]
      rw [show (({ r with value := v, source := src } : AttributeTableRow).attr == b)
            = (r.attr == b) from rfl, hrb]
    · rw [if_neg hr]
      simp only [List.find?_cons]
      cases hrb : (r.attr == b) with
      | true => rfl
      | false => exact ih

theorem updateRowFirst_find?_same (a v src : String) (l : List AttributeTableRow)
    (r : AttributeTableRow) (h : l.find? (fun r2 => r2.attr == a) = some r) :
    (updateRowFirst a v src l).find? (fun r2 => r2.attr == a) =
      some { r with value := v, source := src } := by
  induction l with
  | nil => exact absurd h (by simp)
  | cons x xs ih =>
    unfold updateRowFirst
    by_cases hx : (x.attr == a) = true
    · rw [if_pos hx]
      rw [@List.find?_cons_of_pos _ (fun r2 => r2.attr == a) x xs hx] at h
      have hxr : x = r := Option.some.inj h
      subst hxr
      exact @List.find?_cons_of_pos _ (fun r2 => r2.attr == a)
        { x with value := v, source := src } xs hx
    · rw [if_neg hx]
      rw [@List.find?_cons_of_neg _ (fun r2 => r2.attr == a) x xs (by simpa using hx)] at h
      rw [@List.find?_cons_of_neg _ (fun r2 => r2.attr == a) x
        (updateRowFirst a v src xs) (by simpa using hx)]
      exact ih h

theorem loc_ite (P : Prop) [Decidable P] (A B : UpdateAcc) :
    (if P then A else B).loc = if P then A.loc else B.loc :=
  apply_ite UpdateAcc.loc P A B

theorem rows_ite (P : Prop) [Decidable P] (A B : UpdateAcc) :
    (if P then A else B).rows = if P then A.rows else B.rows :=
  apply_ite UpdateAcc.rows P A B

theorem changes_ite (P : Prop) [Decidable P] (A B : UpdateAcc) :
    (if P then A else B).changes = if P then A.changes else B.changes :=
  apply_ite UpdateAcc.changes P A B

/-- Facts for other attributes leave the pending location alone. -/
theorem processFact_loc_ne (e : String) (L : Option String)
    (ov : List (String × String)) (dis : List DismissedConflict)
    (acc : UpdateAcc) (g : ExtractedFact) (h : ¬ g.attr = "location") :
    (processFact e L ov dis acc g).loc = acc.loc := by
  unfold processFact
  cases hov : lookupOv ov g.attr with
  | some v =>
    rw [loc_ite]
    split <;> rfl
  | none =>
    rw [if_neg (show ¬ (g.attr == "location") = true by simpa using h)]
    cases hf : acc.rows.find? (fun r => r.attr == g.attr) with
    | some ex =>
      rw [loc_ite, loc_ite]
      split
      · split <;> rfl
      · rfl
    | none => rfl

/-- Facts for other attributes leave the first row of attribute `a`
untouched. -/
theorem processFact_rows_find_ne (e : String) (L : Option String)
    (ov : List (String × String)) (dis : List DismissedConflict)
    (acc : UpdateAcc) (g : ExtractedFact) (a : String) (h : ¬ g.attr = a) :
    ((processFact e L ov dis acc g).rows).find? (fun r => r.attr == a) =
      acc.rows.find? (fun r => r.attr == a) := by
  unfold processFact
  cases hov : lookupOv ov g.attr with
  | some v =>
    rw [rows_ite]
    split <;> rfl
  | none =>
    by_cases hloc : (g.attr == "location") = true
    · rw [if_pos hloc]
      rw [rows_ite]
      split <;> split <;> rfl
    · rw [if_neg hloc]
      cases hf : acc.rows.find? (fun r => r.attr == g.attr) with
      | some ex =>
        rw [rows_ite, rows_ite]
        split
        · split
          · rfl
          · rw [show ({ acc with
                changes := acc.changes ++
                  [mkChange g.attr (some ex.value) (some g.value) g],
                rows := updateRowFirst g.attr g.value g.sourceQuote acc.rows } :
                UpdateAcc).rows = updateRowFirst g.attr g.value g.sourceQuote acc.rows
              from rfl]
            exact updateRowFirst_find?_ne g.attr a g.value g.sourceQuote h acc.rows
        · rfl
      | none =>
        show ((acc.rows ++ [mkRow g]).find? (fun r => r.attr == a)) = _
        rw [List.find?_append]
        have hm : ([mkRow g].find? (fun r => r.attr == a)) = none := by
          simp only [List.find?_cons]
          rw [show ((mkRow g).attr == a) = (g.attr == a) from rfl,
            (show (g.attr == a) = false by simpa using h)]
          rfl
        rw [hm, Option.or_none]

theorem fold_loc_ne (e : String) (L : Option String)
    (ov : List (String × String)) (dis : List DismissedConflict)
    (l : List ExtractedFact) (acc : UpdateAcc)
    (h : ∀ g ∈ l, ¬ g.attr = "location") :
    (l.foldl (processFact e L ov dis) acc).loc = acc.loc := by
  induction l generalizing acc with
  | nil => rfl
  | cons g gs ih =>
    rw [List.foldl_cons, ih _ (fun x hx => h x (List.mem_cons_of_mem g hx)),
      processFact_loc_ne e L ov dis acc g (h g (List.mem_cons_self g gs))]

theorem fold_find_ne (e : String) (L : Option String)
    (ov : List (String × String)) (dis : List DismissedConflict) (a : String)
    (l : List ExtractedFact) (acc : UpdateAcc)
    (h : ∀ g ∈ l, ¬ g.attr = a) :
    ((l.foldl (processFact e L ov dis) acc).rows).find? (fun r => r.attr == a) =
      acc.rows.find? (fun r => r.attr == a) := by
  induction l generalizing acc with
  | nil => rfl
  | cons g gs ih =>
    rw [List.foldl_cons, ih _ (fun x hx => h x (List.mem_cons_of_mem g hx)),
      processFact_rows_find_ne e L ov dis acc g a (h g (List.mem_cons_self g gs))]

/-- The location fact's own step sets the pending location to the
normalised new value, whether or not it differs from the stored one. -/
theorem processFact_loc_location (e : String) (L : Option String)
    (ov : List (String × String)) (dis : List DismissedConflict)
    (acc : UpdateAcc) (f : ExtractedFact)
    (hov : lookupOv ov f.attr = none) (hfl : f.attr = "location")
    (hacc : acc.loc = L) :
    (processFact e L ov dis acc f).loc =
      (if f.value == "" then none else some f.value) := by
  unfold processFact
  cases hov2 : lookupOv ov f.attr with
  | some v =>
    rw [hov2] at hov
    exact Option.noConfusion hov
  | none =>
    rw [if_pos (show (f.attr == "location") = true by simp [hfl])]
    by_cases hne : (if (f.value == "") = true then none else some f.value) ≠ L
    · rw [loc_ite, if_pos hne]
    · rw [loc_ite, if_neg hne]
      rw [hacc]
      exact (not_ne_iff.mp hne).symm

/-- The ordinary fact's own step leaves a first row for its attribute that
either holds the fact's value or coexists with an undismissed conflict. -/
theorem processFact_row_self (e : String) (L : Option String)
    (ov : List (String × String)) (dis : List DismissedConflict)
    (acc : UpdateAcc) (f : ExtractedFact)
    (hov : lookupOv ov f.attr = none) (hfl : ¬ f.attr = "location") :
    ∃ r2, ((processFact e L ov dis acc f).rows).find? (fun r => r.attr == f.attr) = some r2 ∧
      (r2.value == f.value || !(isDismissed dis f.attr f.value f.sourceScene)) = true := by
  unfold processFact
  cases hov2 : lookupOv ov f.attr with
  | some v =>
    rw [hov2] at hov
    exact Option.noConfusion hov
  | none =>
    rw [if_neg (show ¬ (f.attr == "location") = true by simpa using hfl)]
    cases hfind : acc.rows.find? (fun r => r.attr == f.attr) with
    | some ex =>
      by_cases hv : ex.value ≠ f.value
      · rw [rows_ite, if_pos hv]
        by_cases hd : ¬ isDismissed dis f.attr f.value f.sourceScene = true
        · rw [rows_ite, if_pos hd]
          refine ⟨ex, hfind, ?_⟩
          rw [show isDismissed dis f.attr f.value f.sourceScene = false by
            simpa using hd]
          simp
        · rw [rows_ite, if_neg hd]
          refine ⟨{ ex with value := f.value, source := f.sourceQuote },
            updateRowFirst_find?_same f.attr f.value f.sourceQuote acc.rows ex hfind, ?_⟩
          simp
      · rw [rows_ite, if_neg hv]
        refine ⟨ex, hfind, ?_⟩
        rw [show (ex.value == f.value) = true by
          simp [not_not.mp (fun hne => hv hne)]]
        simp
    | none =>
      refine ⟨mkRow f, ?_, ?_⟩
      · show ((acc.rows ++ [mkRow f]).find? (fun r => r.attr == f.attr)) = some (mkRow f)
        rw [List.find?_append, hfind]
        simp only [Option.none_or, List.find?_cons]
        rw [show ((mkRow f).attr == f.attr) = true by simp [mkRow]]
      · rw [show ((mkRow f).value == f.value) = true by simp [mkRow]]
        simp

/-- A stable fact's step changes nothing but possibly the conflict list. -/
theorem processFact_stable (e : String) (L : Option String)
    (ov : List (String × String)) (dis : List DismissedConflict)
    (acc : UpdateAcc) (f : ExtractedFact) (_hacc : acc.loc = L)
    (hst : stableFactB acc.rows L ov dis f = true) :
    (processFact e L ov dis acc f).changes = acc.changes ∧
    (processFact e L ov dis acc f).rows = acc.rows ∧
    (processFact e L ov dis acc f).loc = acc.loc := by
  unfold processFact
  unfold stableFactB at hst
  cases hov : lookupOv ov f.attr with
  | some v =>
    refine ⟨?_, ?_, ?_⟩
    · rw [changes_ite]
      split <;> rfl
    · rw [rows_ite]
      split <;> rfl
    · rw [loc_ite]
      split <;> rfl
  | none =>
    rw [hov] at hst
    by_cases hloc : (f.attr == "location") = true
    · rw [if_pos hloc] at hst ⊢
      have hst2 : (if (f.value == "") = true then none else some f.value) = L :=
        eq_of_beq hst
      have hne : ¬ (if (f.value == "") = true then none else some f.value) ≠ L := by
        simpa using hst2
      refine ⟨?_, ?_, ?_⟩
      · rw [changes_ite, if_neg hne]
      · rw [rows_ite, if_neg hne]
      · rw [loc_ite, if_neg hne]
    · rw [if_neg hloc] at hst ⊢
      cases hfind : acc.rows.find? (fun r => r.attr == f.attr) with
      | some ex =>
        rw [hfind] at hst
        by_cases hv : ex.value ≠ f.value
        · have hbe : (ex.value == f.value) = false := by
            simp only [beq_eq_false_iff_ne, ne_eq]
            exact hv
          have hdis : isDismissed dis f.attr f.value f.sourceScene = false := by
            have hst3 : (ex.value == f.value ||
                !isDismissed dis f.attr f.value f.sourceScene) = true := hst
            rw [hbe, Bool.false_or] at hst3
            simpa using hst3
          have hd2 : ¬ isDismissed dis f.attr f.value f.sourceScene = true := by
            rw [hdis]
            exact Bool.false_ne_true
          refine ⟨?_, ?_, ?_⟩
          · rw [changes_ite, if_pos hv, changes_ite, if_pos hd2]
          · rw [rows_ite, if_pos hv, rows_ite, if_pos hd2]
          · rw [loc_ite, if_pos hv, loc_ite, if_pos hd2]
        · refine ⟨?_, ?_, ?_⟩
          · rw [changes_ite, if_neg hv]
          · rw [rows_ite, if_neg hv]
          · rw [loc_ite, if_neg hv]
      | none =>
        rw [hfind] at hst
        simp at hst

/-- A batch of stable facts folds to the accumulator unchanged apart from
conflicts. -/
theorem fold_stable (e : String) (L : Option String)
    (ov : List (String × String)) (dis : List DismissedConflict)
    (l : List ExtractedFact) (acc : UpdateAcc) (hacc : acc.loc = L)
    (hst : ∀ f ∈ l, stableFactB acc.rows L ov dis f = true) :
    (l.foldl (processFact e L ov dis) acc).changes = acc.changes ∧
    (l.foldl (processFact e L ov dis) acc).rows = acc.rows ∧
    (l.foldl (processFact e L ov dis) acc).loc = acc.loc := by
  induction l generalizing acc with
  | nil => exact ⟨rfl, rfl, rfl⟩
  | cons f fs ih =>
    obtain ⟨hc, hr, hl⟩ := processFact_stable e L ov dis acc f hacc
      (hst f (List.mem_cons_self f fs))
    rw [List.foldl_cons]
    obtain ⟨hc2, hr2, hl2⟩ := ih (processFact e L ov dis acc f)
      (by rw [hl, hacc])
      (fun g hg => by
        rw [hr]
        exact hst g (List.mem_cons_of_mem f hg))
    exact ⟨hc2.trans hc, hr2.trans hr, hl2.trans hl⟩

theorem addSceneRow_any_self (rows : List AppearanceRow) (sc : String) :
    (addSceneRow rows sc).any (fun r => r.scene == sc) = true := by
  unfold addSceneRow
  by_cases h : rows.any (fun r => r.scene == sc) = true
  · rw [if_pos h]
    exact h
  · rw [if_neg h]
    rw [List.any_append]
    simp

theorem addSceneRow_any_mono (rows : List AppearanceRow) (sc sc2 : String)
    (h : rows.any (fun r => r.scene == sc) = true) :
    (addSceneRow rows sc2).any (fun r => r.scene == sc) = true := by
  unfold addSceneRow
  split
  · exact h
  · rw [List.any_append, h]
    rfl

theorem fold_addScene_mono (scenes : List String) (rows : List AppearanceRow)
    (sc : String) (h : rows.any (fun r => r.scene == sc) = true) :
    (scenes.foldl addSceneRow rows).any (fun r => r.scene == sc) = true := by
  induction scenes generalizing rows with
  | nil => exact h
  | cons x xs ih =>
    rw [List.foldl_cons]
    exact ih _ (addSceneRow_any_mono rows sc x h)

theorem fold_addScene_present (scenes : List String) (rows : List AppearanceRow) :
    ∀ sc ∈ scenes, (scenes.foldl addSceneRow rows).any (fun r => r.scene == sc) = true := by
  induction scenes generalizing rows with
  | nil => intro sc hsc; exact absurd hsc (List.not_mem_nil sc)
  | cons x xs ih =>
    intro sc hsc
    rw [List.foldl_cons]
    rcases List.mem_cons.mp hsc with he | hm
    · subst he
      exact fold_addScene_mono xs _ sc (addSceneRow_any_self rows sc)
    · exact ih _ sc hm

theorem addSceneRow_present_eq (rows : List AppearanceRow) (sc : String)
    (h : rows.any (fun r => r.scene == sc) = true) : addSceneRow rows sc = rows := by
  unfold addSceneRow
  rw [if_pos h]

theorem fold_addScene_noop (scenes : List String) (rows : List AppearanceRow)
    (h : ∀ sc ∈ scenes, rows.any (fun r => r.scene == sc) = true) :
    scenes.foldl addSceneRow rows = rows := by
  induction scenes with
  | nil => rfl
  | cons x xs ih =>
    rw [List.foldl_cons, addSceneRow_present_eq rows x (h x (List.mem_cons_self x xs))]
    exact ih (fun sc hsc => h sc (List.mem_cons_of_mem x hsc))

/-- After regeneration every row of an overridden attribute displays the
"(manual override)" source provided no override value is the empty
string, so step 7's display test is clean.  (The proviso is real: the
display test is presence-based but the source cell is truthiness-based,
so a falsy override keeps the original source and the test stays true
forever.) -/
theorem overrideNeedsDisplay_renderParse (st : BibleState)
    (hne : ∀ p ∈ st.manualOverrides, ¬ p.2 = "") :
    overrideNeedsDisplay st.manualOverrides (renderParse st).attrRows = false := by
  unfold overrideNeedsDisplay renderParse
  rw [List.any_append]
  have h1 : (st.attrRows.map (displayRow st.manualOverrides)).any
      (fun r => (lookupOv st.manualOverrides r.attr).isSome &&
        r.source != "(manual override)") = false := by
    rw [List.any_map, List.any_eq_false]
    intro r _
    simp only [Function.comp]
    cases ho : lookupOv st.manualOverrides r.attr with
    | none =>
      rw [displayRow_eq_of_not_overridden _ _ ho]
      simp [ho]
    | some v =>
      have hpv : ¬ v = "" := by
        unfold lookupOv at ho
        cases hf : st.manualOverrides.find? (fun q => q.1 == r.attr) with
        | none =>
          rw [hf] at ho
          exact Option.noConfusion ho
        | some p =>
          rw [hf] at ho
          have hv : p.2 = v := by simpa using ho
          rw [← hv]
          exact hne p (List.mem_of_find?_eq_some hf)
      have hd : displayRow st.manualOverrides r =
          { r with value := v, source := "(manual override)" } := by
        unfold displayRow
        rw [ho]
        show ({ r with value := v, source := if (v == "") = true then r.source else "(manual override)" } : AttributeTableRow) = _
        rw [if_neg (show ¬ (v == "") = true by simpa using hpv)]
      rw [hd]
      simp [ho]
  have h2 : (extraOverrideRows st.manualOverrides st.attrRows).any
      (fun r => (lookupOv st.manualOverrides r.attr).isSome &&
        r.source != "(manual override)") = false := by
    rw [List.any_eq_false]
    intro r hr
    unfold extraOverrideRows at hr
    obtain ⟨p, _, hpr⟩ := List.mem_filterMap.mp hr
    by_cases c1 : (p.1 == "location") = true
    · rw [if_pos c1] at hpr
      exact Option.noConfusion hpr
    · rw [if_neg c1] at hpr
      by_cases c2 : st.attrRows.any (fun q => q.attr == p.1) = true
      · rw [if_pos c2] at hpr
        exact Option.noConfusion hpr
      · rw [if_neg c2] at hpr
        have hre : r.source = "(manual override)" := by
          rw [← Option.some.inj hpr]
        rw [hre]
        simp
  rw [h1, h2]
  rfl

/-- A non-writing `doUpdate` took the step-7 early exit: no changes and an
untouched state. -/
theorem doUpdateCore_nowrote (e : String) (st : BibleState)
    (facts : List ExtractedFact) (sceneFile : Option String)
    (appearances : List String)
    (h : (doUpdateCore e st facts sceneFile appearances).wrote = false) :
    (doUpdateCore e st facts sceneFile appearances).changes = [] ∧
    (doUpdateCore e st facts sceneFile appearances).state = st := by
  simp only [doUpdateCore] at h ⊢
  revert h
  split
  · intro _
    exact ⟨rfl, rfl⟩
  · intro h
    simp at h

/-- A writing `doUpdate` persists exactly the fact-loop rows, the merged
appearances and the pending location. -/
theorem doUpdateCore_wrote_state (e : String) (st : BibleState)
    (facts : List ExtractedFact) (sceneFile : Option String)
    (appearances : List String)
    (h : (doUpdateCore e st facts sceneFile appearances).wrote = true) :
    (doUpdateCore e st facts sceneFile appearances).state =
      writtenState e st facts sceneFile appearances := by
  simp only [doUpdateCore, writtenState, updateFold]
  simp only [doUpdateCore] at h
  revert h
  split
  · intro h
    simp at h
  · intro _
    rfl

/-- The no-op early exit: stable facts, already-recorded appearances and a
clean override display give zero writes. -/
theorem doUpdateCore_noop (e : String) (st : BibleState)
    (facts : List ExtractedFact) (sceneFile : Option String)
    (appearances : List String)
    (hstable : ∀ f ∈ facts, stableFactB st.attrRows st.location
      st.manualOverrides st.dismissedConflicts f = true)
    (happ : ∀ sc ∈ appearances ++ sceneFile.toList,
      st.appRows.any (fun r => r.scene == sc) = true)
    (hovd : overrideNeedsDisplay st.manualOverrides st.attrRows = false) :
    (doUpdateCore e st facts sceneFile appearances).wrote = false ∧
    (doUpdateCore e st facts sceneFile appearances).changes = [] ∧
    (doUpdateCore e st facts sceneFile appearances).state = st := by
  obtain ⟨hch, hrows, _⟩ := fold_stable e st.location st.manualOverrides
    st.dismissedConflicts facts ⟨[], [], st.attrRows, st.location⟩ rfl hstable
  have happ2 : (appearances ++ sceneFile.toList).foldl addSceneRow st.appRows =
      st.appRows := fold_addScene_noop _ _ happ
  simp only [doUpdateCore]
  rw [if_pos ?hc]
  case hc =>
    refine ⟨?_, ?_, ?_⟩
    · rw [hch]
      rfl
    · rw [happ2]
    · rw [hrows, hovd]
      exact Bool.false_ne_true
  exact ⟨rfl, rfl, rfl⟩

theorem nodup_attr_split (facts sl tl : List ExtractedFact) (f : ExtractedFact)
    (hsplit : facts = sl ++ f :: tl)
    (hnd : (facts.map (fun g => g.attr)).Nodup) :
    (∀ g ∈ sl, ¬ g.attr = f.attr) ∧ (∀ g ∈ tl, ¬ g.attr = f.attr) := by
  subst hsplit
  rw [List.map_append, List.map_cons, List.nodup_append] at hnd
  obtain ⟨h1, h2, h3⟩ := hnd
  constructor
  · intro g hg he
    exact h3 (List.mem_map.mpr ⟨g, hg, rfl⟩)
      (by rw [he]; exact List.mem_cons_self _ _)
  · intro g hg he
    exact (List.nodup_cons.mp h2).1 (List.mem_map.mpr ⟨g, hg, he⟩)

/-- The location heading after regeneration, when "location" carries no
manual override: the pending location with a falsy value parsed back as
`null`. -/
theorem renderParse_location_of_none_ov (st : BibleState)
    (h : lookupOv st.manualOverrides "location" = none) :
    (renderParse st).location =
      (match st.location with
        | some v => if v == "" then none else some v
        | none => none) := by
  unfold renderParse
  rw [h]

/-- Heart of claim C2: after a write, every fact of an attribute-distinct
batch is stable against the re-read state, so the next identical scan
changes nothing. -/
theorem rescan_fact_stable (e : String) (st : BibleState)
    (facts : List ExtractedFact) (sceneFile : Option String)
    (appearances : List String)
    (hnd : (facts.map (fun g => g.attr)).Nodup)
    (f : ExtractedFact) (hf : f ∈ facts) :
    stableFactB (renderParse (writtenState e st facts sceneFile appearances)).attrRows
      (renderParse (writtenState e st facts sceneFile appearances)).location
      st.manualOverrides st.dismissedConflicts f = true := by
  obtain ⟨sl, tl, hsplit⟩ := List.append_of_mem hf
  obtain ⟨hs, ht⟩ := nodup_attr_split facts sl tl f hsplit hnd
  unfold stableFactB
  cases hov : lookupOv st.manualOverrides f.attr with
  | some v => rfl
  | none =>
    by_cases hloc : (f.attr == "location") = true
    · rw [if_pos hloc]
      have hfl : f.attr = "location" := by simpa using hloc
      have hovl : lookupOv st.manualOverrides "location" = none := by
        rw [← hfl]
        exact hov
      have hovl2 : lookupOv
          (writtenState e st facts sceneFile appearances).manualOverrides
          "location" = none := hovl
      have hfold : (updateFold e st facts).loc =
          (if (f.value == "") = true then none else some f.value) := by
        unfold updateFold
        rw [hsplit, List.foldl_append, List.foldl_cons]
        rw [fold_loc_ne e st.location st.manualOverrides st.dismissedConflicts tl _
          (fun g hg he => ht g hg (he.trans hfl.symm))]
        exact processFact_loc_location e st.location st.manualOverrides
          st.dismissedConflicts _ f hov hfl
          (fold_loc_ne e st.location st.manualOverrides st.dismissedConflicts sl _
            (fun g hg he => hs g hg (he.trans hfl.symm)))
      by_cases hv : (f.value == "") = true
      · have hrp : (renderParse (writtenState e st facts sceneFile appearances)).location
            = none := by
          rw [renderParse_location_of_none_ov _ hovl2]
          rw [show (writtenState e st facts sceneFile appearances).location =
            (updateFold e st facts).loc from rfl, hfold, if_pos hv]
        rw [hrp, if_pos hv]
        rfl
      · have hrp : (renderParse (writtenState e st facts sceneFile appearances)).location
            = some f.value := by
          rw [renderParse_location_of_none_ov _ hovl2]
          rw [show (writtenState e st facts sceneFile appearances).location =
            (updateFold e st facts).loc from rfl, hfold, if_neg hv]
          show (if (f.value == "") = true then none else some f.value) = some f.value
          rw [if_neg hv]
        rw [hrp, if_neg hv]
        simp
    · rw [if_neg hloc]
      have hfl : ¬ f.attr = "location" := by simpa using hloc
      have hrw := renderParse_find?_of_not_overridden
        (writtenState e st facts sceneFile appearances) f.attr hov
      have hfind : ∃ r2, ((writtenState e st facts sceneFile appearances).attrRows).find?
          (fun r => r.attr == f.attr) = some r2 ∧
          (r2.value == f.value ||
            !(isDismissed st.dismissedConflicts f.attr f.value f.sourceScene)) = true := by
        rw [show (writtenState e st facts sceneFile appearances).attrRows =
          (updateFold e st facts).rows from rfl]
        unfold updateFold
        rw [hsplit, List.foldl_append, List.foldl_cons]
        rw [fold_find_ne e st.location st.manualOverrides st.dismissedConflicts f.attr tl _ ht]
        exact processFact_row_self e st.location st.manualOverrides
          st.dismissedConflicts _ f hov hfl
      obtain ⟨r2, hr2, hp2⟩ := hfind
      have hattr : r2.attr = f.attr := by simpa using List.find?_some hr2
      have hdisp : displayRow
          (writtenState e st facts sceneFile appearances).manualOverrides r2 = r2 :=
        displayRow_eq_of_not_overridden _ _ (by rw [hattr]; exact hov)
      rw [hrw, hr2, Option.map_some', hdisp]
      exact hp2

/-- Merging one conflict whose first key match in the log is active
updates that record in place: length and first-match activity of every
key are preserved. -/
theorem mergeStep_active_first (log : List ConflictRecord) (c : ConflictRecord)
    (h : firstKeyMatchActive log c = true) :
    (mergeStep log c).length = log.length ∧
    ∀ c2, firstKeyMatchActive (mergeStep log c) c2 = firstKeyMatchActive log c2 := by
  induction log with
  | nil => simp [firstKeyMatchActive] at h
  | cons e2 rest ih =>
    by_cases hk : sameKey e2 c = true
    · have hst : (e2.status == ConflictStatus.active) = true := by
        unfold firstKeyMatchActive at h
        rw [@List.find?_cons_of_pos _ (fun x => sameKey x c) e2 rest hk] at h
        exact h
      unfold mergeStep
      rw [if_pos hk, if_pos hst]
      refine ⟨rfl, ?_⟩
      intro c2
      unfold firstKeyMatchActive
      have hkk : sameKey { e2 with newValue := c.newValue, newLine := c.newLine } c2
          = sameKey e2 c2 := rfl
      by_cases hk2 : sameKey e2 c2 = true
      · rw [@List.find?_cons_of_pos _ (fun x => sameKey x c2)
            { e2 with newValue := c.newValue, newLine := c.newLine } rest
            (by simpa [hkk] using hk2),
          @List.find?_cons_of_pos _ (fun x => sameKey x c2) e2 rest hk2]
      · rw [@List.find?_cons_of_neg _ (fun x => sameKey x c2)
            { e2 with newValue := c.newValue, newLine := c.newLine } rest
            (by simpa [hkk] using hk2),
          @List.find?_cons_of_neg _ (fun x => sameKey x c2) e2 rest (by simpa using hk2)]
    · have h2 : firstKeyMatchActive rest c = true := by
        unfold firstKeyMatchActive at h ⊢
        rw [@List.find?_cons_of_neg _ (fun x => sameKey x c) e2 rest
          (by simpa using hk)] at h
        exact h
      obtain ⟨hlen, htr⟩ := ih h2
      unfold mergeStep
      rw [if_neg hk]
      refine ⟨?_, ?_⟩
      · show (e2 :: mergeStep rest c).length = (e2 :: rest).length
        simp [hlen]
      · intro c2
        unfold firstKeyMatchActive
        by_cases hk2 : sameKey e2 c2 = true
        · rw [@List.find?_cons_of_pos _ (fun x => sameKey x c2) e2
              (mergeStep rest c) hk2,
            @List.find?_cons_of_pos _ (fun x => sameKey x c2) e2 rest hk2]
        · rw [@List.find?_cons_of_neg _ (fun x => sameKey x c2) e2
              (mergeStep rest c) (by simpa using hk2),
            @List.find?_cons_of_neg _ (fun x => sameKey x c2) e2 rest
              (by simpa using hk2)]
          exact htr c2

/-- A merge whose incoming conflicts all dedup against active log records
appends nothing. -/
theorem mergeConflicts_length_active (log incoming : List ConflictRecord)
    (h : ∀ c ∈ incoming, firstKeyMatchActive log c = true) :
    (mergeConflicts log incoming).length = log.length := by
  induction incoming generalizing log with
  | nil => rfl
  | cons c cs ih =>
    obtain ⟨hlen, htr⟩ := mergeStep_active_first log c (h c (List.mem_cons_self c cs))
    unfold mergeConflicts
    rw [List.foldl_cons]
    have hih := ih (mergeStep log c)
      (fun c2 hc2 => by rw [htr c2]; exact h c2 (List.mem_cons_of_mem c hc2))
    unfold mergeConflicts at hih
    rw [hih, hlen]

/-- C2 counterexample: a batch holding two location facts for the same
scene (an arrival then a departure, extracted from one unchanged document)
makes the stored location flip on every re-scan, so the second run over
the unchanged document and unchanged record writes again and records a
change — re-running scanOne is not idempotent. -/
theorem C2_counterexample : c2Run2.wrote = true ∧ c2Run2.changes ≠ [] := by
  decide

/-- C2 (amended): re-running the reconciler on an unchanged document
produces zero writes provided the extracted batch carries at most one
fact per attribute: the second run writes nothing, records no changes and
leaves the persisted record exactly as the first run left it; and its
re-detected conflicts merge into any log whose first record per dedup key
is active without growing the log (zero new conflict records).  Both
provisos are necessary: two location facts in one batch flip the stored
location on every run (the counterexample), and an empty-string manual
override keeps step 7's presence-based display test true against the
truthiness-based source cell, so every re-scan writes forever. -/
theorem C2_rescan_idempotent (e : String) (st : BibleState)
    (facts : List ExtractedFact) (sceneFile : Option String)
    (appearances : List String)
    (hnd : (facts.map (fun f => f.attr)).Nodup)
    (hov0 : ∀ p ∈ st.manualOverrides, ¬ p.2 = "") :
    (bibleUpdate e (bibleUpdate e st facts sceneFile appearances).state
        facts sceneFile appearances).wrote = false ∧
    (bibleUpdate e (bibleUpdate e st facts sceneFile appearances).state
        facts sceneFile appearances).changes = [] ∧
    (bibleUpdate e (bibleUpdate e st facts sceneFile appearances).state
        facts sceneFile appearances).state =
      (bibleUpdate e st facts sceneFile appearances).state ∧
    ∀ log : List ConflictRecord,
      (∀ c ∈ (bibleUpdate e (bibleUpdate e st facts sceneFile appearances).state
          facts sceneFile appearances).conflicts,
        firstKeyMatchActive log c = true) →
      (mergeConflicts log (bibleUpdate e (bibleUpdate e st facts sceneFile
          appearances).state facts sceneFile appearances).conflicts).length =
        log.length := by
  by_cases hw : (doUpdateCore e st facts sceneFile appearances).wrote = true
  · have hs1 : (bibleUpdate e st facts sceneFile appearances).state =
        renderParse (writtenState e st facts sceneFile appearances) := by
      simp only [bibleUpdate]
      rw [if_pos hw]
      show renderParse (doUpdateCore e st facts sceneFile appearances).state = _
      rw [doUpdateCore_wrote_state e st facts sceneFile appearances hw]
    obtain ⟨hw2, hch2, hst2⟩ := doUpdateCore_noop e
      (renderParse (writtenState e st facts sceneFile appearances))
      facts sceneFile appearances
      (fun f hf => rescan_fact_stable e st facts sceneFile appearances hnd f hf)
      (fun sc hsc =>
        fold_addScene_present (appearances ++ sceneFile.toList) st.appRows sc hsc)
      (overrideNeedsDisplay_renderParse
        (writtenState e st facts sceneFile appearances) hov0)
    have hr2 : bibleUpdate e
        (renderParse (writtenState e st facts sceneFile appearances))
        facts sceneFile appearances =
        doUpdateCore e (renderParse (writtenState e st facts sceneFile appearances))
          facts sceneFile appearances := by
      simp only [bibleUpdate]
      rw [if_neg (by rw [hw2]; exact Bool.false_ne_true)]
    refine ⟨?_, ?_, ?_, ?_⟩
    · rw [hs1, hr2]
      exact hw2
    · rw [hs1, hr2]
      exact hch2
    · rw [hs1, hr2]
      exact hst2
    · intro log hlog
      exact mergeConflicts_length_active log _ hlog
  · have hw2 : (doUpdateCore e st facts sceneFile appearances).wrote = false := by
      cases hx : (doUpdateCore e st facts sceneFile appearances).wrote with
      | false => rfl
      | true => exact absurd hx hw
    obtain ⟨hch1, hst1⟩ := doUpdateCore_nowrote e st facts sceneFile appearances hw2
    have hr1 : bibleUpdate e st facts sceneFile appearances =
        doUpdateCore e st facts sceneFile appearances := by
      simp only [bibleUpdate]
      rw [if_neg (by rw [hw2]; exact Bool.false_ne_true)]
    have hstate : (bibleUpdate e st facts sceneFile appearances).state = st := by
      rw [hr1]
      exact hst1
    refine ⟨?_, ?_, ?_, ?_⟩
    · rw [hstate, hr1]
      exact hw2
    · rw [hstate, hr1]
      exact hch1
    · rw [hstate]
      exact hstate
    · intro log hlog
      exact mergeConflicts_length_active log _ hlog

theorem C2_rescan_idempotent_witness :
    (([wFact "hair" "copper" "s1.md", wFact "eyes" "blue" "s1.md"].map
      (fun f => f.attr)).Nodup) ∧
    (∀ p ∈ emptyState.manualOverrides, ¬ p.2 = "") ∧
    ((bibleUpdate "Elena" (bibleUpdate "Elena" emptyState
        [wFact "hair" "copper" "s1.md", wFact "eyes" "blue" "s1.md"]
        (some "s1.md") []).state
        [wFact "hair" "copper" "s1.md", wFact "eyes" "blue" "s1.md"]
        (some "s1.md") []).wrote = false ∧
    (bibleUpdate "Elena" (bibleUpdate "Elena" emptyState
        [wFact "hair" "copper" "s1.md", wFact "eyes" "blue" "s1.md"]
        (some "s1.md") []).state
        [wFact "hair" "copper" "s1.md", wFact "eyes" "blue" "s1.md"]
        (some "s1.md") []).changes = [] ∧
    (bibleUpdate "Elena" (bibleUpdate "Elena" emptyState
        [wFact "hair" "copper" "s1.md", wFact "eyes" "blue" "s1.md"]
        (some "s1.md") []).state
        [wFact "hair" "copper" "s1.md", wFact "eyes" "blue" "s1.md"]
        (some "s1.md") []).state =
      (bibleUpdate "Elena" emptyState
        [wFact "hair" "copper" "s1.md", wFact "eyes" "blue" "s1.md"]
        (some "s1.md") []).state ∧
    ∀ log : List ConflictRecord,
      (∀ c ∈ (bibleUpdate "Elena" (bibleUpdate "Elena" emptyState
          [wFact "hair" "copper" "s1.md", wFact "eyes" "blue" "s1.md"]
          (some "s1.md") []).state
          [wFact "hair" "copper" "s1.md", wFact "eyes" "blue" "s1.md"]
          (some "s1.md") []).conflicts,
        firstKeyMatchActive log c = true) →
      (mergeConflicts log (bibleUpdate "Elena" (bibleUpdate "Elena" emptyState
          [wFact "hair" "copper" "s1.md", wFact "eyes" "blue" "s1.md"]
          (some "s1.md") []).state
          [wFact "hair" "copper" "s1.md", wFact "eyes" "blue" "s1.md"]
          (some "s1.md") []).conflicts).length = log.length) :=
  ⟨by decide, by decide, C2_rescan_idempotent "Elena" emptyState
    [wFact "hair" "copper" "s1.md", wFact "eyes" "blue" "s1.md"]
    (some "s1.md") [] (by decide) (by decide)⟩

end Chronicle
